import Mathlib

/-!
Verification development for the container autoscaling orchestrator
(`main_container/orchestrator.py`, `main_container/ml_predictor.py`,
`main_container/metrics_collector.py`, `main_container/graph_manager.py`).

Modelling conventions:
* Python floats are modelled as exact rationals (`ℚ`); Python ints as `ℤ`/`ℕ`.
* `numpy.std` is the non-negative square root of the population variance.
  Since every comparison of a volatility in the source has the form
  `std > c` with `c ≥ 0`, we store the *square* of the volatility
  (the population variance) and compare with `c ^ 2`; this is an exact
  encoding that avoids irrational square roots.
* Python `round(x, 2)` is modelled by `round2` (round to a multiple of 1/100;
  the tie-breaking rule differs from Python's banker's rounding only on exact
  ties, which none of the claims depend on).
* `try/except` bodies are modelled in the `Except Unit` monad; a caught
  exception corresponds to `Except.error ()`.
* Dictionary lookups that may raise `KeyError` are modelled with `Option`
  fields; `d.get(k, default)` is `Option.getD`.
-/

namespace DockerOrch

/-- Python `values[-k:]`: the last `k` elements of a list (all of them when
the list is shorter than `k`). -/
def takeLast {α : Type} (k : ℕ) (l : List α) : List α :=
  l.drop (l.length - k)

/-- Python `round(x, 2)`: round to the nearest multiple of 1/100. -/
def round2 (q : ℚ) : ℚ :=
  ((round (q * 100) : ℤ) : ℚ) / 100

/-! ## ML predictor (`ml_predictor.py`)

`predict_load` receives two windows of recent CPU% / memory% values.  The
windows arrive as JSON-ish Python lists, so an element is either a number or
some non-numeric value; `PyVal` captures exactly that distinction. -/

/-- A Python value appearing in a metrics window: a number, or anything
non-numeric (for which arithmetic raises `TypeError`). -/
inductive PyVal where
  | num (q : ℚ)
  | other
deriving DecidableEq

/-- All elements numeric?  (numpy/sklearn succeed on the extracted numbers
exactly when this is `some`.) -/
def asNums : List PyVal → Option (List ℚ)
  | [] => some []
  | PyVal.num q :: rest => (asNums rest).map (q :: ·)
  | PyVal.other :: _ => none

/-- `values[-1] if values else 0` (the `else` branch yields the number 0). -/
def lastOrZero (l : List PyVal) : PyVal :=
  (l.getLast?).getD (PyVal.num 0)

/-- Using a Python value as a number: raises `TypeError` on non-numbers. -/
def toNumE : PyVal → Except Unit ℚ
  | PyVal.num q => Except.ok q
  | PyVal.other => Except.error ()

/-- Ordinary-least-squares slope of `ys` against `x = 0, 1, …, n-1`
(`LinearRegression().fit(x, y).coef_[0]` in `_calculate_trend`). -/
def slope (ys : List ℚ) : ℚ :=
  let n : ℚ := ys.length
  let xs : List ℚ := (List.range ys.length).map (fun i : ℕ => (i : ℚ))
  let sx := xs.sum
  let sy := ys.sum
  let sxx := (xs.map (fun x => x * x)).sum
  let sxy := ((xs.zip ys).map (fun p => p.1 * p.2)).sum
  (n * sxy - sx * sy) / (n * sxx - sx * sx)

/-- `_calculate_trend(values)`: 0 when fewer than two points; otherwise the
OLS slope.  A fit failure (non-numeric data) is caught inside the function
and also yields 0. -/
def calculateTrendV (vs : List PyVal) : ℚ :=
  if vs.length < 2 then 0
  else
    match asNums vs with
    | some qs => slope qs
    | none => 0

/-- Population variance (the square of `np.std`). -/
def popVar (l : List ℚ) : ℚ :=
  let m := l.sum / l.length
  ((l.map (fun y => (y - m) ^ 2)).sum) / l.length

/-- `np.std(values)` squared, on Python values: raises on non-numeric data. -/
def stdSqE (vs : List PyVal) : Except Unit ℚ :=
  match asNums vs with
  | some qs => Except.ok (popVar qs)
  | none => Except.error ()

/-- `_calculate_confidence(cpu_values, memory_values)`. -/
def calculateConfidence (cpu mem : List PyVal) : ℚ :=
  let dataPoints := min cpu.length mem.length
  if dataPoints < 10 then 3/10
  else if dataPoints < 20 then 1/2
  else if dataPoints < 50 then 7/10
  else 9/10

/-- The result dictionary of `predict_load`.  `cpu_volatility_sq` stores the
square of the source's `cpu_volatility` (see the header comment); the
`reasons` list of log strings is omitted. -/
structure PredictResult where
  predicted_cpu : ℚ
  predicted_memory : ℚ
  cpu_trend : ℚ
  memory_trend : ℚ
  cpu_volatility_sq : ℚ
  memory_volatility_sq : ℚ
  should_scale : Bool
  confidence : ℚ
deriving DecidableEq

/-- The dictionary returned from the `except` branch of `predict_load`
(the Python dict carries no volatility keys; they are modelled as 0). -/
def defaultPredictResult : PredictResult :=
  { predicted_cpu := 0
    predicted_memory := 0
    cpu_trend := 0
    memory_trend := 0
    cpu_volatility_sq := 0
    memory_volatility_sq := 0
    should_scale := false
    confidence := 0 }

/-- The `try` body of `predict_load(cpu_values, memory_values, horizon)`.
`loadThreshold` is `self.load_threshold`, which is set to 80 in `__init__`
and never reassigned anywhere in the program. -/
def predictLoadTry (cpu mem : List PyVal) (horizon loadThreshold : ℚ) :
    Except Unit PredictResult := do
  let cpuTrend := calculateTrendV (takeLast 20 cpu)
  let memTrend := calculateTrendV (takeLast 20 mem)
  let currentCpu ← toNumE (lastOrZero cpu)
  let predictedCpu := currentCpu + cpuTrend * horizon
  let currentMem ← toNumE (lastOrZero mem)
  let predictedMem := currentMem + memTrend * horizon
  let cpuVolSq ← if 10 ≤ cpu.length then stdSqE (takeLast 10 cpu) else pure 0
  let memVolSq ← if 10 ≤ mem.length then stdSqE (takeLast 10 mem) else pure 0
  let shouldScale :=
    decide (loadThreshold < predictedCpu) ||
    decide (loadThreshold < predictedMem) ||
    (decide ((5 : ℚ) < cpuTrend) && decide ((60 : ℚ) < currentCpu)) ||
    (decide ((5 : ℚ) < memTrend) && decide ((60 : ℚ) < currentMem)) ||
    decide ((400 : ℚ) < cpuVolSq)
  pure
    { predicted_cpu := min predictedCpu 100
      predicted_memory := min predictedMem 100
      cpu_trend := cpuTrend
      memory_trend := memTrend
      cpu_volatility_sq := cpuVolSq
      memory_volatility_sq := memVolSq
      should_scale := shouldScale
      confidence := calculateConfidence cpu mem }

/-- `predict_load`: the `try` body, with any exception caught and replaced
by the default result. -/
def predictLoad (cpu mem : List PyVal) (horizon loadThreshold : ℚ) :
    PredictResult :=
  match predictLoadTry cpu mem horizon loadThreshold with
  | Except.ok r => r
  | Except.error _ => defaultPredictResult

/-- Inject an all-numeric window. -/
def numQ (l : List ℚ) : List PyVal := l.map PyVal.num

/-- `_calculate_trend` on an all-numeric window. -/
def trendQ (l : List ℚ) : ℚ :=
  if l.length < 2 then 0 else slope l

/-- Volatility squared of an all-numeric window (0 for short windows). -/
def volSqQ (l : List ℚ) : ℚ :=
  if 10 ≤ l.length then popVar (takeLast 10 l) else 0

/-- `values[-1] if values else 0` on an all-numeric window. -/
def currentQ (l : List ℚ) : ℚ :=
  (l.getLast?).getD 0

/-! ## Metrics collector (`metrics_collector.py`)

A Docker runtime-stats snapshot as consumed by `parse_stats`.  Every field
that the source reads with `[...]` (raising `KeyError` when absent) or with
`.get(..., default)` is an `Option`. -/

/-- `stats['cpu_stats']['cpu_usage']`. -/
structure CpuUsage where
  total_usage : Option ℤ
  percpu_usage : Option (List ℤ)

/-- `stats['cpu_stats']` / `stats['precpu_stats']`. -/
structure CpuStats where
  cpu_usage : Option CpuUsage
  system_cpu_usage : Option ℤ
  online_cpus : Option ℕ

/-- `stats['memory_stats']`. -/
structure MemoryStats where
  usage : Option ℕ
  limit : Option ℕ

/-- One entry of `stats['networks']`. -/
structure NetIface where
  rx_bytes : Option ℕ
  tx_bytes : Option ℕ

/-- One entry of `blkio_stats['io_service_bytes_recursive']`. -/
structure BlkEntry where
  op : Option String
  value : Option ℕ

/-- A runtime-stats snapshot.  The two `.get` levels around
`io_service_bytes_recursive` both default to the empty collection, so the
entry list is flattened into one optional list. -/
structure Stats where
  cpu_stats : Option CpuStats
  precpu_stats : Option CpuStats
  memory_stats : Option MemoryStats
  networks : Option (List (String × NetIface))
  io_service_bytes_recursive : Option (List BlkEntry)

/-- `_calculate_cpu_percent(cpu_stats, precpu_stats)`.  Any `KeyError`
raised while reading the totals is caught inside the function and yields 0. -/
def calculateCpuPercent (cs pcs : CpuStats) : ℚ :=
  match cs.cpu_usage, pcs.cpu_usage with
  | some cu, some pcu =>
    match cu.total_usage, pcu.total_usage, cs.system_cpu_usage,
        pcs.system_cpu_usage with
    | some t, some pt, some s, some ps =>
      let cpuDelta : ℤ := t - pt
      let systemDelta : ℤ := s - ps
      let onlineCpus : ℕ := cs.online_cpus.getD (cu.percpu_usage.getD [1]).length
      if 0 < systemDelta ∧ 0 < cpuDelta then
        min ((cpuDelta : ℚ) / (systemDelta : ℚ) * onlineCpus * 100) 100
      else 0
    | _, _, _, _ => 0
  | _, _ => 0

/-- The Sample produced by `parse_stats` (its `timestamp` field, which no
claim reads, is omitted). -/
structure Sample where
  cpu_percent : ℚ
  memory_percent : ℚ
  memory_usage : ℕ
  memory_limit : ℕ
  network_rx : ℕ
  network_tx : ℕ
  block_read : ℕ
  block_write : ℕ
deriving DecidableEq

/-- `_default_metrics()`: the zero-valued Sample emitted when parsing fails. -/
def defaultMetrics : Sample :=
  { cpu_percent := 0
    memory_percent := 0
    memory_usage := 0
    memory_limit := 0
    network_rx := 0
    network_tx := 0
    block_read := 0
    block_write := 0 }

/-- `parse_stats(stats)`.  A missing `cpu_stats`, `precpu_stats` or
`memory_stats` key raises inside the `try` and produces `_default_metrics()`;
note `memory_stats.get('limit', 1)` — a missing memory limit defaults to 1. -/
def parseStats (stats : Stats) : Sample :=
  match stats.cpu_stats, stats.precpu_stats, stats.memory_stats with
  | some cs, some pcs, some ms =>
    let cpuPercent := calculateCpuPercent cs pcs
    let memoryUsage := ms.usage.getD 0
    let memoryLimit := ms.limit.getD 1
    let memoryPercent : ℚ :=
      if 0 < memoryLimit then ((memoryUsage : ℚ) / (memoryLimit : ℚ)) * 100
      else 0
    let networkRx :=
      (stats.networks.getD []).foldl (fun acc p => acc + p.2.rx_bytes.getD 0) 0
    let networkTx :=
      (stats.networks.getD []).foldl (fun acc p => acc + p.2.tx_bytes.getD 0) 0
    let blockRead :=
      (stats.io_service_bytes_recursive.getD []).foldl
        (fun acc e => if e.op.getD "" = "Read" then acc + e.value.getD 0 else acc) 0
    let blockWrite :=
      (stats.io_service_bytes_recursive.getD []).foldl
        (fun acc e =>
          if e.op.getD "" = "Read" then acc
          else if e.op.getD "" = "Write" then acc + e.value.getD 0 else acc) 0
    { cpu_percent := round2 cpuPercent
      memory_percent := round2 memoryPercent
      memory_usage := memoryUsage
      memory_limit := memoryLimit
      network_rx := networkRx
      network_tx := networkTx
      block_read := blockRead
      block_write := blockWrite }
  | _, _, _ => defaultMetrics

/-- The entry the monitor loop stores in `container_metrics[name]`
(its `timestamp`, `network_rx`, `network_tx` fields are not read by any
modelled operation and are omitted). -/
structure MonSample where
  cpu_percent : ℚ
  memory_percent : ℚ
deriving DecidableEq

/-- Projection of a parsed Sample onto the stored monitoring entry. -/
def toMon (s : Sample) : MonSample :=
  { cpu_percent := s.cpu_percent, memory_percent := s.memory_percent }

/-- One monitor tick for one container: append the parsed sample and trim the
history to the last 100 entries (`monitor_containers`, lines 464–474). -/
def monitorAppend (ring : List MonSample) (st : Stats) : List MonSample :=
  let r := ring ++ [toMon (parseStats st)]
  if 100 < r.length then r.drop (r.length - 100) else r

/-- The metrics ring of one container after the monitor has processed the
given sequence of runtime-stats snapshots. -/
def metricsOf (trace : List Stats) : List MonSample :=
  trace.foldl monitorAppend []

/-! ### Rate helpers (`calculate_network_throughput` / `calculate_disk_iops`)

`self.previous_stats[name]` holds one dict per container.  The network helper
stores `timestamp`/`network_rx`/`network_tx`; the disk helper stores
`timestamp`/`block_read`/`block_write`; a dict access for a key the cached
dict does not carry raises an uncaught `KeyError` (modelled as
`Except.error`).  Both calls to `datetime.now()` inside one invocation are
modelled as the same instant `now`. -/

/-- A cached `previous_stats` entry. -/
structure PrevRec where
  timestamp : ℚ
  network_rx : Option ℚ
  network_tx : Option ℚ
  block_read : Option ℚ
  block_write : Option ℚ
deriving DecidableEq

/-- The `previous_stats` dictionary. -/
def PrevCache : Type := String → Option PrevRec

/-- The empty `previous_stats` dictionary of a fresh collector. -/
def emptyCache : PrevCache := fun _ => none

/-- Update one entry of the cache. -/
def cacheInsert (c : PrevCache) (name : String) (r : PrevRec) : PrevCache :=
  fun n => if n = name then some r else c n

/-- Read a dict key that may be absent (`KeyError` when it is). -/
def keyE {α : Type} : Option α → Except Unit α
  | some a => Except.ok a
  | none => Except.error ()

/-- The dict stored by `calculate_network_throughput`. -/
def netRec (now rx tx : ℚ) : PrevRec :=
  { timestamp := now, network_rx := some rx, network_tx := some tx
    block_read := none, block_write := none }

/-- The dict stored by `calculate_disk_iops` on first observation. -/
def diskRec (now br bw : ℚ) : PrevRec :=
  { timestamp := now, network_rx := none, network_tx := none
    block_read := some br, block_write := some bw }

/-- `calculate_network_throughput(container_name, current_stats)` at wall
clock `now`: returns `(rx_throughput, tx_throughput)` and the new cache. -/
def calculateNetworkThroughput (cache : PrevCache) (name : String) (now : ℚ)
    (cur : Sample) : Except Unit ((ℚ × ℚ) × PrevCache) :=
  match cache name with
  | none =>
    Except.ok ((0, 0),
      cacheInsert cache name (netRec now (cur.network_rx : ℚ) (cur.network_tx : ℚ)))
  | some prev =>
    let timeDelta := now - prev.timestamp
    if timeDelta = 0 then Except.ok ((0, 0), cache)
    else do
      let prx ← keyE prev.network_rx
      let ptx ← keyE prev.network_tx
      let rxThroughput := ((cur.network_rx : ℚ) - prx) / timeDelta
      let txThroughput := ((cur.network_tx : ℚ) - ptx) / timeDelta
      Except.ok ((round2 rxThroughput, round2 txThroughput),
        cacheInsert cache name
          (netRec now (cur.network_rx : ℚ) (cur.network_tx : ℚ)))

/-- `calculate_disk_iops(container_name, current_stats)` at wall clock `now`.
Unlike the network helper, the non-first branch performs **no** cache
update (the source has none). -/
def calculateDiskIops (cache : PrevCache) (name : String) (now : ℚ)
    (cur : Sample) : Except Unit ((ℚ × ℚ) × PrevCache) :=
  match cache name with
  | none =>
    Except.ok ((0, 0),
      cacheInsert cache name (diskRec now (cur.block_read : ℚ) (cur.block_write : ℚ)))
  | some prev =>
    let timeDelta := now - prev.timestamp
    if timeDelta = 0 then Except.ok ((0, 0), cache)
    else do
      let pbr ← keyE prev.block_read
      let pbw ← keyE prev.block_write
      let readIops := ((cur.block_read : ℚ) - pbr) / timeDelta
      let writeIops := ((cur.block_write : ℚ) - pbw) / timeDelta
      Except.ok ((round2 readIops, round2 writeIops), cache)

/-- Run a sequence of `(now, current_stats)` invocations of one rate helper
for one container, collecting the returned rate pairs and the final cache. -/
def runCalls
    (f : PrevCache → String → ℚ → Sample → Except Unit ((ℚ × ℚ) × PrevCache))
    (cache : PrevCache) (name : String) :
    List (ℚ × Sample) → Except Unit (List (ℚ × ℚ) × PrevCache)
  | [] => Except.ok ([], cache)
  | (t, s) :: rest =>
    match f cache name t s with
    | Except.error e => Except.error e
    | Except.ok (r, c) =>
      match runCalls f c name rest with
      | Except.error e => Except.error e
      | Except.ok (rs, c') => Except.ok (r :: rs, c')

/-- Build a cached network record from an observation triple. -/
def netRecOf (p : ℚ × ℚ × ℚ) : PrevRec :=
  netRec p.1 p.2.1 p.2.2

/-! ## Orchestrator (`orchestrator.py`) -/

/-- Substring search on character lists (Python `pat in s`). -/
def startsWithL : List Char → List Char → Bool
  | [], _ => true
  | _ :: _, [] => false
  | p :: ps, c :: cs => p = c && startsWithL ps cs

/-- `pat` occurs somewhere in `s` (character-list version). -/
def containsSubL (pat : List Char) : List Char → Bool
  | [] => startsWithL pat []
  | c :: cs => startsWithL pat (c :: cs) || containsSubL pat cs

/-- Python `pat in s` for strings. -/
def strContains (s pat : String) : Bool :=
  containsSubL pat.data s.data

/-- `'_replica_' in name`: the source's replica test. -/
def isReplicaName (s : String) : Bool :=
  strContains s "_replica_"

/-- An `active_containers` record (`container` handle and `created_at`
timestamp omitted; `id` abstracted to a number). -/
structure Instance where
  id : ℕ
  replicas : List String
  parent : Option String
deriving DecidableEq

/-- The `active_containers` mapping. -/
def Fleet : Type := String → Option Instance

/-! ### `check_scaling_need` and the scaling cooldown (claim C4) -/

/-- `timedelta.seconds` of a non-negative/arbitrary wall-clock difference
`d` (in seconds): timedeltas are normalised so that `.seconds` is
`⌊d⌋ mod 86400`, NOT the total number of seconds. -/
def tdSeconds (d : ℚ) : ℤ :=
  ⌊d⌋ % 86400

/-- The cooldown gate of `check_scaling_need`:
`container_name in self.scaling_cooldown and
(datetime.now() - self.scaling_cooldown[name]).seconds < 60`.
The bound 60 is a hard-coded literal in the source. -/
def cooldownActive (cd : Option ℚ) (now : ℚ) : Bool :=
  match cd with
  | none => false
  | some t => decide (tdSeconds (now - t) < 60)

/-- The cooldown map `self.scaling_cooldown`. -/
def CooldownMap : Type := String → Option ℚ

/-- `check_scaling_need(container_name, _)` invoked at wall clock `now` with
the container's current metrics ring: returns whether `scale_container` was
invoked, and the updated cooldown map.  `self.load_threshold` is 80 and
`predict_load` is called with its default `horizon=5`. -/
def checkScalingNeed (cd : CooldownMap) (name : String) (now : ℚ)
    (ring : List MonSample) : Bool × CooldownMap :=
  if cooldownActive (cd name) now then (false, cd)
  else
    let historicalData := takeLast 20 ring
    if historicalData.length < 10 then (false, cd)
    else
      let cpuValues := historicalData.map (fun m => m.cpu_percent)
      let memValues := historicalData.map (fun m => m.memory_percent)
      let prediction := predictLoad (numQ cpuValues) (numQ memValues) 5 80
      if decide (80 < prediction.predicted_cpu) || prediction.should_scale then
        (true, fun n => if n = name then some now else cd n)
      else (false, cd)

/-- One observable `check_scaling_need` invocation: the container name, the
wall-clock time, and whether `scale_container` was invoked. -/
structure ScaleEvent where
  name : String
  time : ℚ
  scaled : Bool
deriving DecidableEq

/-- Run a sequence of `check_scaling_need` invocations
`(name, now, ring)` threading the cooldown map. -/
def runChecks : CooldownMap → List (String × ℚ × List MonSample) → List ScaleEvent
  | _, [] => []
  | cd, (n, t, ring) :: rest =>
    let p := checkScalingNeed cd n t ring
    ⟨n, t, p.1⟩ :: runChecks p.2 rest

/-- A trace of `check_scaling_need` invocations starting from the empty
cooldown map of a freshly constructed orchestrator. -/
def scalingTrace (calls : List (String × ℚ × List MonSample)) : List ScaleEvent :=
  runChecks (fun _ => none) calls

/-- The environment variables the spec lists for the orchestrator. -/
structure OrchEnv where
  MAX_REPLICAS_PER_CONTAINER : Option ℕ
  IDLE_REPLICA_SECONDS : Option ℕ
  IDLE_REPLICA_CPU_THRESHOLD : Option ℚ
  SCALING_COOLDOWN : Option ℕ

/-- The configuration `ContainerOrchestrator.__init__` actually builds from
the environment (lines 80–88): note that no field is derived from
`SCALING_COOLDOWN` — the variable is never read by the program. -/
structure OrchConfig where
  load_threshold : ℚ
  max_replicas_per_container : ℕ
  idle_replica_seconds : ℕ
  idle_replica_cpu_threshold : ℚ

/-- `__init__`'s configuration reads. -/
def configOfEnv (e : OrchEnv) : OrchConfig :=
  { load_threshold := 80
    max_replicas_per_container := e.MAX_REPLICAS_PER_CONTAINER.getD 2
    idle_replica_seconds := e.IDLE_REPLICA_SECONDS.getD 300
    idle_replica_cpu_threshold := e.IDLE_REPLICA_CPU_THRESHOLD.getD 5 }

/-- Modelled from the spec (claim C4's reading of the configuration table):
`scaling_cooldown_seconds` as the spec describes it — the value of the
environment variable `SCALING_COOLDOWN`, defaulting to 60.  The source has
no such configuration read; this definition exists only to state the claim. -/
def scalingCooldownSecondsSpec (e : OrchEnv) : ℕ :=
  e.SCALING_COOLDOWN.getD 60

/-! ### `_create_replica` and `_next_replica_name` (claim C5) -/

/-- The candidate name `f"{original_name}_replica_{i}"`. -/
def replicaCandidate (orig : String) (i : ℕ) : String :=
  orig ++ "_replica_" ++ toString i

/-- The loop body of `_next_replica_name`: try candidates `i, i+1, …` for
`fuel` iterations.  A candidate is skipped when it is in
`active_containers` or when `docker_client.containers.get` finds it in the
runtime (`runtime c = true`). -/
def findFreeName (fleet : Fleet) (runtime : String → Bool) (orig : String) :
    ℕ → ℕ → Option String
  | _, 0 => none
  | i, fuel + 1 =>
    let c := replicaCandidate orig i
    if (fleet c).isSome then findFreeName fleet runtime orig (i + 1) fuel
    else if runtime c then findFreeName fleet runtime orig (i + 1) fuel
    else some c

/-- `_next_replica_name(original_name)`: `for i in range(1, 1000)` — the
search starts at 1 and tries at most 999 candidates, returning `None` when
all are taken. -/
def nextReplicaName (fleet : Fleet) (runtime : String → Bool) (orig : String) :
    Option String :=
  findFreeName fleet runtime orig 1 999

/-- `_create_replica(original_name)`.  The runtime `containers.run` call is
modelled as succeeding with handle `newId`; graph and persistence side
effects (best-effort, caught) do not affect the fleet and are omitted.
Returns the replica name together with the updated fleet, or `none`. -/
def createReplica (fleet : Fleet) (runtime : String → Bool) (maxReplicas : ℕ)
    (newId : ℕ) (orig : String) : Option (String × Fleet) :=
  match fleet orig with
  | none => none
  | some inst =>
    if isReplicaName orig then none
    else if maxReplicas ≤ inst.replicas.length then none
    else
      match nextReplicaName fleet runtime orig with
      | none => none
      | some replicaName =>
        let fleet' : Fleet := fun n =>
          if n = replicaName then
            some { id := newId, replicas := [], parent := some orig }
          else if n = orig then
            some { inst with replicas := inst.replicas ++ [replicaName] }
          else fleet n
        some (replicaName, fleet')

/-- A replica-name candidate is free: held by neither the fleet nor the
runtime (the claim's condition, identical to the code's skip conditions). -/
def freeName (fleet : Fleet) (runtime : String → Bool) (orig : String)
    (i : ℕ) : Prop :=
  fleet (replicaCandidate orig i) = none ∧ runtime (replicaCandidate orig i) = false

/-! ### `_select_best_instance` / `route_request` (claim C6) -/

/-- The per-container metrics map `self.container_metrics` (a `defaultdict`:
absent names read as the empty list). -/
def MetricsMap : Type := String → List MonSample

/-- The fold step of `_select_best_instance`'s loop: the accumulator is
`(min_load, best_instance)` with `none` standing for `float('inf')`.  A
candidate without metrics leaves the accumulator unchanged; a strict
improvement `current_load < min_load` replaces it. -/
def selectStep (metrics : MetricsMap) (acc : Option ℚ × String)
    (inst : String) : Option ℚ × String :=
  match (metrics inst).getLast? with
  | none => acc
  | some m =>
    match acc.1 with
    | none => (some m.cpu_percent, inst)
    | some minLoad =>
      if m.cpu_percent < minLoad then (some m.cpu_percent, inst) else acc

/-- `_select_best_instance(instances)` on the non-empty candidate list
`first :: rest` (the source reads `instances[0]`, and every caller passes
`[container_name] + replicas`). -/
def selectBestInstance (metrics : MetricsMap) (first : String)
    (rest : List String) : String :=
  (((first :: rest).foldl (selectStep metrics) (none, first))).2

/-- The candidate list `route_request` builds for a non-direct request:
`[container_name]` extended with the replicas when the name is tracked. -/
def routeCandidates (fleet : Fleet) (name : String) : List String :=
  match fleet name with
  | some inst => inst.replicas
  | none => []

/-- The dispatch target chosen by `route_request(name, payload)` when the
payload does not carry a truthy `__direct_instance` flag. -/
def routeTarget (fleet : Fleet) (metrics : MetricsMap) (name : String) : String :=
  selectBestInstance metrics name (routeCandidates fleet name)

/-- The latest-sample CPU load of a candidate (`none` when it has no
sample, which the spec ranks as +∞). -/
def loadOf (metrics : MetricsMap) (inst : String) : Option ℚ :=
  ((metrics inst).getLast?).map (fun m => m.cpu_percent)

/-- Minimum of a list of rationals (`none` for the empty list). -/
def minList? : List ℚ → Option ℚ
  | [] => none
  | x :: xs =>
    match minList? xs with
    | none => some x
    | some m => some (min x m)

/-- Modelled from the spec (claim C6's wording): the winner among
`first :: rest` is the first candidate whose latest-sample CPU equals the
minimum over all sampled candidates; if no candidate has a sample, the
first candidate.  This is the specification-side definition compared with
`selectBestInstance`. -/
def specBest (metrics : MetricsMap) (first : String) (rest : List String) :
    String :=
  let cands := first :: rest
  match minList? (cands.filterMap (loadOf metrics)) with
  | none => first
  | some m => ((cands.find? (fun c => loadOf metrics c = some m)).getD first)

/-! ### `create_container` (claim C7) -/

/-- `env.setdefault(key, value)`. -/
def setDefault (env : List (String × String)) (key value : String) :
    List (String × String) :=
  if (env.find? (fun p => p.1 = key)).isSome then env else env ++ [(key, value)]

/-- The worker-image test of `create_container`:
`'worker' in image.lower() and 'nginx' not in ... and 'mongo' not in ...`. -/
def isWorkerImage (image : String) : Bool :=
  strContains image.toLower "worker" && !strContains image.toLower "nginx" &&
    !strContains image.toLower "mongo"

/-- The environment `create_container` passes to `containers.run`. -/
def workerEnv (image name : String) (env : List (String × String)) :
    List (String × String) :=
  if isWorkerImage image then
    setDefault (setDefault env "CONTAINER_NAME" name)
      "ORCHESTRATOR_URL" "http://main:5000"
  else env

/-- `create_container(image_name, container_name, env_vars, ports)`.
`run` models `docker_client.containers.run` (returning `none` when it
raises — e.g. a runtime name conflict); the function performs **no** fleet
membership check.  On a raise the outer `except` returns `None` and the
fleet is untouched; on success the record is written into
`active_containers[name]`, overwriting any previous entry.  Persistence and
graph side effects are omitted (they do not touch the fleet). -/
def createContainer (fleet : Fleet) (lastRequestAt : String → Option ℚ)
    (image name : String) (env : List (String × String))
    (run : String → String → List (String × String) → Option ℕ) (now : ℚ) :
    Option ℕ × Fleet × (String → Option ℚ) :=
  let env' := workerEnv image name env
  match run image name env' with
  | none => (none, fleet, lastRequestAt)
  | some cid =>
    (some cid,
      fun n => if n = name then some { id := cid, replicas := [], parent := none }
               else fleet n,
      fun n => if n = name then some now else lastRequestAt n)

/-! ## Graph manager (`graph_manager.py`, claim C8)

`GraphManager` wraps an `nx.DiGraph`: a set of named nodes with at most one
directed edge per ordered pair.  `get_topology_order` calls
`nx.topological_sort` (Kahn's algorithm) inside
`try: … except nx.NetworkXError: return []`.  On a cyclic graph
`topological_sort` raises `NetworkXUnfeasible("Graph contains a cycle …")`;
`NetworkXUnfeasible` subclasses `NetworkXAlgorithmError`, not
`NetworkXError`, so the cycle failure is **not** caught and propagates to
the caller — `get_topology_order` fails with a cycle-present error exactly
when the sort fails.  `detect_cycles` returns `list(nx.simple_cycles(g))`,
the list of all elementary cycles (including self-loops). -/

/-- A directed graph over container identities. -/
structure DiGraph where
  nodes : List String
  edges : List (String × String)
deriving DecidableEq

/-- The graphs `GraphManager` builds: node list without duplicates
(`nx.DiGraph` node sets are sets) and edge endpoints that are nodes
(`add_edge` auto-creates missing endpoints). -/
def WellFormed (g : DiGraph) : Prop :=
  g.nodes.Nodup ∧ ∀ e ∈ g.edges, e.1 ∈ g.nodes ∧ e.2 ∈ g.nodes

/-- `v` has an incoming edge from some vertex of `rem` (including itself,
for self-loops). -/
def hasIncomingFrom (g : DiGraph) (rem : List String) (v : String) : Bool :=
  rem.any (fun u => decide ((u, v) ∈ g.edges))

/-- Kahn's algorithm as run by `nx.topological_sort`: repeatedly emit a
vertex with no incoming edge from the not-yet-emitted vertices; fail
(`NetworkXUnfeasible`) when none exists while vertices remain. -/
def kahnAux (g : DiGraph) : ℕ → List String → Option (List String)
  | 0, rem => if rem.isEmpty then some [] else none
  | fuel + 1, rem =>
    match rem.find? (fun v => !hasIncomingFrom g rem v) with
    | none => if rem.isEmpty then some [] else none
    | some v => (kahnAux g fuel (rem.erase v)).map (v :: ·)

/-- `list(nx.topological_sort(g))`: `none` models the raised
`NetworkXUnfeasible`. -/
def topoSortKahn (g : DiGraph) : Option (List String) :=
  kahnAux g g.nodes.length g.nodes

/-- `get_topology_order()`: the `NetworkXUnfeasible` raised on a cyclic
graph is not caught by `except nx.NetworkXError` and propagates
(`Except.error ()`). -/
def getTopologyOrder (g : DiGraph) : Except Unit (List String) :=
  match topoSortKahn g with
  | some l => Except.ok l
  | none => Except.error ()

/-- `c` is an elementary (simple) cycle of `g`: a non-empty duplicate-free
vertex list whose consecutive vertices are joined by edges, closed by an
edge from its last vertex back to its first.  A single vertex with a
self-loop is the length-1 case, as in `nx.simple_cycles`. -/
def SimpleCycle (g : DiGraph) (c : List String) : Prop :=
  c ≠ [] ∧ c.Nodup ∧ List.Chain' (fun a b => (a, b) ∈ g.edges) c ∧
    ∃ h t, c.head? = some h ∧ c.getLast? = some t ∧ (t, h) ∈ g.edges

/-- `detect_cycles()` (i.e. `list(nx.simple_cycles(g))`) is non-empty. -/
def HasCycle (g : DiGraph) : Prop :=
  ∃ c, SimpleCycle g c

/-- `l` is a topological ordering of all of `g`'s nodes: a permutation of
the node list in which no edge points backwards and no listed vertex
carries a self-loop. -/
def IsTopoOrder (g : DiGraph) (l : List String) : Prop :=
  l.Perm g.nodes ∧ l.Pairwise (fun a b => (b, a) ∉ g.edges) ∧
    ∀ v ∈ l, (v, v) ∉ g.edges

/-! ## Concrete inputs used by witnesses and counterexamples -/

/-- A CPU-stats block whose totals are all zero (both deltas 0, so
`_calculate_cpu_percent` returns 0). -/
def exCpuStatsZero : CpuStats :=
  { cpu_usage := some { total_usage := some 0, percpu_usage := none }
    system_cpu_usage := some 0
    online_cpus := none }

/-- A runtime-stats snapshot whose memory usage (200) exceeds its memory
limit (100). -/
def exStatsOver : Stats :=
  { cpu_stats := some exCpuStatsZero
    precpu_stats := some exCpuStatsZero
    memory_stats := some { usage := some 200, limit := some 100 }
    networks := none
    io_service_bytes_recursive := none }

/-- A runtime-stats snapshot with memory usage 50 of limit 100. -/
def exStatsHalf : Stats :=
  { cpu_stats := some exCpuStatsZero
    precpu_stats := some exCpuStatsZero
    memory_stats := some { usage := some 50, limit := some 100 }
    networks := none
    io_service_bytes_recursive := none }

/-- The network rates of one call against a previous observation
`(tp, rxp, txp)` — the claim's "rate against counters and timestamp". -/
def netRatesP (tp rxp txp : ℚ) (c : ℚ × Sample) : ℚ × ℚ :=
  (round2 (((c.2.network_rx : ℚ) - rxp) / (c.1 - tp)),
   round2 (((c.2.network_tx : ℚ) - txp) / (c.1 - tp)))

/-- The disk rates of one call against a previous observation. -/
def diskRatesP (tp brp bwp : ℚ) (c : ℚ × Sample) : ℚ × ℚ :=
  (round2 (((c.2.block_read : ℚ) - brp) / (c.1 - tp)),
   round2 (((c.2.block_write : ℚ) - bwp) / (c.1 - tp)))

/-- Expected network results when each call is rated against the
immediately preceding call (the claim's "most recently observed
counters"). -/
def netResultsFrom : (ℚ × ℚ × ℚ) → List (ℚ × Sample) → List (ℚ × ℚ)
  | _, [] => []
  | p, c :: rest =>
    netRatesP p.1 p.2.1 p.2.2 c ::
      netResultsFrom (c.1, (c.2.network_rx : ℚ), (c.2.network_tx : ℚ)) rest

/-- The previous-observation triple after a sequence of network calls. -/
def netStateAfter : (ℚ × ℚ × ℚ) → List (ℚ × Sample) → ℚ × ℚ × ℚ
  | p, [] => p
  | _, c :: rest =>
    netStateAfter (c.1, (c.2.network_rx : ℚ), (c.2.network_tx : ℚ)) rest

/-- Expected disk results when every call is rated against one fixed
observation `(tp, brp, bwp)`. -/
def diskResultsFrom (tp brp bwp : ℚ) (calls : List (ℚ × Sample)) :
    List (ℚ × ℚ) :=
  calls.map (diskRatesP tp brp bwp)

/-- A Sample whose only non-zero counter is `block_read`. -/
def exDiskSample (n : ℕ) : Sample :=
  { defaultMetrics with block_read := n }

/-- Three disk-IOPS invocations: counters 0, 100, 400 at times 0, 10, 20. -/
def exDiskCalls : List (ℚ × Sample) :=
  [(0, exDiskSample 0), (10, exDiskSample 100), (20, exDiskSample 400)]

/-- Two network-throughput invocations used by the claim-C9 witness. -/
def exNetCalls : List (ℚ × Sample) :=
  [(0, defaultMetrics), (10, defaultMetrics)]

/-- A metrics ring of ten entries at CPU 90%, memory 10% — hot enough that
`predict_load` forecasts CPU 90 > 80 and `check_scaling_need` scales. -/
def exHotRing : List MonSample :=
  List.replicate 10 { cpu_percent := 90, memory_percent := 10 }

/-- Two `check_scaling_need` invocations for container `"w"`, 100 seconds
apart, both over the hot ring. -/
def exCooldownCalls : List (String × ℚ × List MonSample) :=
  [("w", 0, exHotRing), ("w", 100, exHotRing)]

/-- An environment setting `SCALING_COOLDOWN=300` (which the orchestrator
never reads). -/
def exEnv : OrchEnv :=
  { MAX_REPLICAS_PER_CONTAINER := none
    IDLE_REPLICA_SECONDS := none
    IDLE_REPLICA_CPU_THRESHOLD := none
    SCALING_COOLDOWN := some 300 }

/-- A fleet holding the single parent container `"p"` with no replicas. -/
def exFleet5 : Fleet := fun n =>
  if n = "p" then some { id := 1, replicas := [], parent := none } else none

/-- A runtime holding exactly the name `"p_replica_1"`. -/
def exRuntimeOne : String → Bool := fun s => s == "p_replica_1"

/-- A runtime holding every name of at most 13 characters — in particular
all of `p_replica_1` … `p_replica_999` (10–13 characters), but not
`p_replica_1000` (14 characters). -/
def exRuntimeHeld : String → Bool := fun s => decide (s.length ≤ 13)

/-- A fleet already holding the name `"w1"`. -/
def exFleet7 : Fleet := fun n =>
  if n = "w1" then some { id := 1, replicas := [], parent := none } else none

/-- A runtime whose `containers.run` accepts any request (handle 2). -/
def exRunOk : String → String → List (String × String) → Option ℕ :=
  fun _ _ _ => some 2

/-- A runtime whose `containers.run` raises on any request. -/
def exRunFail : String → String → List (String × String) → Option ℕ :=
  fun _ _ _ => none

/-- A metrics map for the claim-C6 witness: `w1` at CPU 70, its replica
`w1_replica_1` at CPU 10. -/
def exMetrics6 : MetricsMap := fun n =>
  if n = "w1" then [{ cpu_percent := 70, memory_percent := 0 }]
  else if n = "w1_replica_1" then [{ cpu_percent := 10, memory_percent := 0 }]
  else []

/-- A fleet in which `w1` has the single replica `w1_replica_1`. -/
def exFleet6 : Fleet := fun n =>
  if n = "w1" then some { id := 1, replicas := ["w1_replica_1"], parent := none }
  else if n = "w1_replica_1" then
    some { id := 2, replicas := [], parent := some "w1" }
  else none

/-- A two-node dependency graph with the single edge `a -> b`. -/
def exGraph : DiGraph := { nodes := ["a", "b"], edges := [("a", "b")] }

/-! ## Lemmas about the predictor -/

theorem asNums_numQ (l : List ℚ) : asNums (l.map PyVal.num) = some l := by
  induction l with
  | nil => rfl
  | cons x xs ih => simp [asNums] at ih ⊢; exact ih

theorem takeLast_numQ (k : ℕ) (l : List ℚ) :
    takeLast k (l.map PyVal.num) = (takeLast k l).map PyVal.num := by
  simp [takeLast, List.map_drop]

theorem toNumE_lastOrZero (l : List ℚ) :
    toNumE (lastOrZero (l.map PyVal.num)) = Except.ok (currentQ l) := by
  cases h : l.getLast? <;>
    simp [lastOrZero, currentQ, List.getLast?_map, h, toNumE]

theorem calculateTrendV_numQ (l : List ℚ) :
    calculateTrendV (l.map PyVal.num) = trendQ l := by
  rw [calculateTrendV, trendQ, List.length_map, asNums_numQ]

/-- Evaluation of `predict_load` on all-numeric windows: the `try` body
succeeds and every output field has its closed numeric form. -/
theorem predictLoad_numQ (cpu mem : List ℚ) (h thr : ℚ) :
    predictLoad (numQ cpu) (numQ mem) h thr =
      { predicted_cpu := min (currentQ cpu + trendQ (takeLast 20 cpu) * h) 100
        predicted_memory := min (currentQ mem + trendQ (takeLast 20 mem) * h) 100
        cpu_trend := trendQ (takeLast 20 cpu)
        memory_trend := trendQ (takeLast 20 mem)
        cpu_volatility_sq := volSqQ cpu
        memory_volatility_sq := volSqQ mem
        should_scale :=
          decide (thr < currentQ cpu + trendQ (takeLast 20 cpu) * h) ||
          decide (thr < currentQ mem + trendQ (takeLast 20 mem) * h) ||
          (decide ((5 : ℚ) < trendQ (takeLast 20 cpu)) &&
            decide ((60 : ℚ) < currentQ cpu)) ||
          (decide ((5 : ℚ) < trendQ (takeLast 20 mem)) &&
            decide ((60 : ℚ) < currentQ mem)) ||
          decide ((400 : ℚ) < volSqQ cpu)
        confidence := calculateConfidence (numQ cpu) (numQ mem) } := by
  by_cases h1 : 10 ≤ cpu.length <;> by_cases h2 : 10 ≤ mem.length <;>
    simp [predictLoad, predictLoadTry, numQ, Bind.bind, Except.bind,
      takeLast_numQ, calculateTrendV_numQ, toNumE_lastOrZero, stdSqE,
      asNums_numQ, volSqQ, h1, h2, pure, Except.pure]

/-- C1: for every pair of numeric CPU and memory windows given to
`predict_load` (with the predictor's load threshold, 80), the returned
`should_scale` is true exactly when at least one of the following holds:
`predicted_cpu > 80`, `predicted_memory > 80`, `cpu_trend > 5` and the
current CPU > 60, `memory_trend > 5` and the current memory > 60, or the
CPU volatility exceeds 20 (equivalently, its square — the stored
`cpu_volatility_sq` — exceeds 400); otherwise it is false. -/
theorem predict_load_decision (cpu mem : List ℚ) (h : ℚ) :
    (predictLoad (numQ cpu) (numQ mem) h 80).should_scale = true ↔
      (80 < (predictLoad (numQ cpu) (numQ mem) h 80).predicted_cpu ∨
       80 < (predictLoad (numQ cpu) (numQ mem) h 80).predicted_memory ∨
       (5 < (predictLoad (numQ cpu) (numQ mem) h 80).cpu_trend ∧
         60 < currentQ cpu) ∨
       (5 < (predictLoad (numQ cpu) (numQ mem) h 80).memory_trend ∧
         60 < currentQ mem) ∨
       400 < (predictLoad (numQ cpu) (numQ mem) h 80).cpu_volatility_sq) := by
  rw [predictLoad_numQ]
  simp only [Bool.or_eq_true, Bool.and_eq_true, decide_eq_true_eq]
  constructor
  · rintro ((((hc | hm) | ht) | hmt) | hv)
    · exact Or.inl (lt_min hc (by norm_num))
    · exact Or.inr (Or.inl (lt_min hm (by norm_num)))
    · exact Or.inr (Or.inr (Or.inl ht))
    · exact Or.inr (Or.inr (Or.inr (Or.inl hmt)))
    · exact Or.inr (Or.inr (Or.inr (Or.inr hv)))
  · rintro (hc | hm | ht | hmt | hv)
    · exact Or.inl (Or.inl (Or.inl (Or.inl (lt_min_iff.mp hc).1)))
    · exact Or.inl (Or.inl (Or.inl (Or.inr (lt_min_iff.mp hm).1)))
    · exact Or.inl (Or.inl (Or.inr ht))
    · exact Or.inl (Or.inr hmt)
    · exact Or.inr hv

/-- C3 (amended): for every numeric window and horizon `h`, the forecast
equals `current + trend × h` clamped from **above** only:
`predicted = min(current + trend × h, 100)`.  There is no lower clamp at 0;
the value is merely bounded above by 100. -/
theorem predict_load_forecast (cpu mem : List ℚ) (h : ℚ) :
    (predictLoad (numQ cpu) (numQ mem) h 80).predicted_cpu =
        min (currentQ cpu + trendQ (takeLast 20 cpu) * h) 100 ∧
      (predictLoad (numQ cpu) (numQ mem) h 80).predicted_memory =
        min (currentQ mem + trendQ (takeLast 20 mem) * h) 100 ∧
      (predictLoad (numQ cpu) (numQ mem) h 80).predicted_cpu ≤ 100 ∧
      (predictLoad (numQ cpu) (numQ mem) h 80).predicted_memory ≤ 100 := by
  rw [predictLoad_numQ]
  exact ⟨rfl, rfl, min_le_right _ _, min_le_right _ _⟩

/-- C3 (counterexample): on the window `[100, 50, 0]` (trend −50) with the
default horizon 5, `predict_load` returns `predicted_cpu = −250`: negative,
not the claimed clamp at 0. -/
theorem predict_load_forecast_cex :
    (predictLoad (numQ [100, 50, 0]) (numQ [100, 50, 0]) 5 80).predicted_cpu
        = -250 ∧
      ¬(predictLoad (numQ [100, 50, 0]) (numQ [100, 50, 0]) 5 80).predicted_cpu
        = 0 ∧
      (predictLoad (numQ [100, 50, 0]) (numQ [100, 50, 0]) 5 80).predicted_cpu
        < 0 := by
  have hv : (predictLoad (numQ [100, 50, 0]) (numQ [100, 50, 0]) 5 80).predicted_cpu
      = -250 := by
    rw [predictLoad_numQ]
    have h2 : takeLast 20 ([100, 50, 0] : List ℚ) = [100, 50, 0] := rfl
    have h3 : trendQ ([100, 50, 0] : List ℚ) = -50 := by
      rw [trendQ]
      simp [slope, List.range_succ]
      norm_num
    show min (currentQ [100, 50, 0] + trendQ (takeLast 20 [100, 50, 0]) * 5) 100
        = -250
    rw [h2, h3]
    norm_num [currentQ, min_def]
  refine ⟨hv, by rw [hv]; norm_num, by rw [hv]; norm_num⟩

/-- C10: `predict_load` is total — for every pair of input windows (numeric
or not) it returns a result: either the successful value of its `try` body,
or, when the body raises internally, the default result with
`should_scale = false`, confidence 0 and zero predictions. -/
theorem predict_load_total (cpu mem : List PyVal) (h thr : ℚ) :
    predictLoadTry cpu mem h thr =
        Except.ok (predictLoad cpu mem h thr) ∨
      (predictLoad cpu mem h thr = defaultPredictResult ∧
        defaultPredictResult.should_scale = false ∧
        defaultPredictResult.confidence = 0 ∧
        defaultPredictResult.predicted_cpu = 0 ∧
        defaultPredictResult.predicted_memory = 0 ∧
        ∃ e, predictLoadTry cpu mem h thr = Except.error e) := by
  rw [predictLoad]
  cases hx : predictLoadTry cpu mem h thr with
  | ok r => exact Or.inl rfl
  | error e => exact Or.inr ⟨rfl, rfl, rfl, rfl, rfl, e, rfl⟩

/-! ## Lemmas about the metrics collector -/

theorem round_monoQ {x y : ℚ} (h : x ≤ y) : round x ≤ round y := by
  rw [round_eq, round_eq]
  exact Int.floor_le_floor (by linarith)

theorem round2_nonneg {q : ℚ} (h : 0 ≤ q) : 0 ≤ round2 q := by
  rw [round2]
  have h1 : round (0 : ℚ) ≤ round (q * 100) := round_monoQ (by nlinarith)
  rw [round_zero] at h1
  have h2 : (0 : ℚ) ≤ ((round (q * 100) : ℤ) : ℚ) := by exact_mod_cast h1
  linarith

theorem round2_le_100 {q : ℚ} (h : q ≤ 100) : round2 q ≤ 100 := by
  rw [round2]
  have h1 : round (q * 100) ≤ round ((10000 : ℤ) : ℚ) :=
    round_monoQ (by push_cast; nlinarith)
  rw [round_intCast] at h1
  have h2 : ((round (q * 100) : ℤ) : ℚ) ≤ 10000 := by exact_mod_cast h1
  linarith

theorem calculateCpuPercent_bounds (cs pcs : CpuStats) :
    0 ≤ calculateCpuPercent cs pcs ∧ calculateCpuPercent cs pcs ≤ 100 := by
  rcases hcu : cs.cpu_usage with _ | cu
  · simp [calculateCpuPercent, hcu]
  rcases hpcu : pcs.cpu_usage with _ | pcu
  · simp [calculateCpuPercent, hcu, hpcu]
  rcases ht : cu.total_usage with _ | t
  · simp [calculateCpuPercent, hcu, hpcu, ht]
  rcases hpt : pcu.total_usage with _ | pt
  · simp [calculateCpuPercent, hcu, hpcu, ht, hpt]
  rcases hs : cs.system_cpu_usage with _ | s
  · simp [calculateCpuPercent, hcu, hpcu, ht, hpt, hs]
  rcases hps : pcs.system_cpu_usage with _ | ps
  · simp [calculateCpuPercent, hcu, hpcu, ht, hpt, hs, hps]
  simp only [calculateCpuPercent, hcu, hpcu, ht, hpt, hs, hps]
  split
  case isTrue hpos =>
    have hx : (0 : ℚ) ≤
        ((t - pt : ℤ) : ℚ) / ((s - ps : ℤ) : ℚ) *
          ((cs.online_cpus.getD (cu.percpu_usage.getD [1]).length : ℕ) : ℚ) * 100 := by
      have hd : (0 : ℚ) < ((t - pt : ℤ) : ℚ) / ((s - ps : ℤ) : ℚ) :=
        div_pos (by exact_mod_cast hpos.2) (by exact_mod_cast hpos.1)
      have := Nat.cast_nonneg (α := ℚ)
        (cs.online_cpus.getD (cu.percpu_usage.getD [1]).length)
      nlinarith
    exact ⟨le_min hx (by norm_num), min_le_right _ _⟩
  case isFalse _ => norm_num

theorem parseStats_bounds (st : Stats) :
    0 ≤ (parseStats st).cpu_percent ∧ (parseStats st).cpu_percent ≤ 100 ∧
      0 ≤ (parseStats st).memory_percent := by
  rcases hc : st.cpu_stats with _ | cs
  · simp [parseStats, hc, defaultMetrics]
  rcases hp : st.precpu_stats with _ | pcs
  · simp [parseStats, hc, hp, defaultMetrics]
  rcases hm : st.memory_stats with _ | ms
  · simp [parseStats, hc, hp, hm, defaultMetrics]
  have hcpu := calculateCpuPercent_bounds cs pcs
  have hmem : (0 : ℚ) ≤
      (if 0 < ms.limit.getD 1 then
        ((ms.usage.getD 0 : ℕ) : ℚ) / ((ms.limit.getD 1 : ℕ) : ℚ) * 100 else 0) := by
    split
    · have h1 : (0 : ℚ) ≤ ((ms.usage.getD 0 : ℕ) : ℚ) := Nat.cast_nonneg _
      have h2 : (0 : ℚ) ≤ ((ms.limit.getD 1 : ℕ) : ℚ) := Nat.cast_nonneg _
      positivity
    · exact le_refl 0
  simp only [parseStats, hc, hp, hm]
  exact ⟨round2_nonneg hcpu.1, round2_le_100 hcpu.2, round2_nonneg hmem⟩

theorem mem_monitorAppend {ring : List MonSample} {st : Stats} {s : MonSample}
    (h : s ∈ monitorAppend ring st) :
    s ∈ ring ∨ s = toMon (parseStats st) := by
  simp only [monitorAppend] at h
  have h' : s ∈ ring ++ [toMon (parseStats st)] := by
    split at h
    · exact List.mem_of_mem_drop h
    · exact h
  rcases List.mem_append.mp h' with h1 | h1
  · exact Or.inl h1
  · exact Or.inr (List.mem_singleton.mp h1)

theorem foldl_monitorAppend_bounds (trace : List Stats) :
    ∀ ring : List MonSample,
      (∀ s ∈ ring, 0 ≤ s.cpu_percent ∧ s.cpu_percent ≤ 100 ∧
        0 ≤ s.memory_percent) →
      ∀ s ∈ trace.foldl monitorAppend ring,
        0 ≤ s.cpu_percent ∧ s.cpu_percent ≤ 100 ∧ 0 ≤ s.memory_percent := by
  induction trace with
  | nil => intro ring hring s hs; exact hring s hs
  | cons st rest ih =>
    intro ring hring s hs
    refine ih (monitorAppend ring st) ?_ s hs
    intro s' hs'
    rcases mem_monitorAppend hs' with h1 | h1
    · exact hring s' h1
    · rw [h1]
      have := parseStats_bounds st
      exact ⟨this.1, this.2.1, this.2.2⟩

/-- C2 (amended): in every state the monitor loop can put one container's
metrics ring into, every stored entry has `cpu_percent ∈ [0, 100]` and
`memory_percent ≥ 0` — but `memory_percent` is **not** bounded by 100:
`parse_stats` never clamps it (and a missing memory limit defaults to 1),
so it exceeds 100 whenever usage exceeds limit. -/
theorem monitor_ring_bounds (trace : List Stats) :
    ∀ s ∈ metricsOf trace,
      0 ≤ s.cpu_percent ∧ s.cpu_percent ≤ 100 ∧ 0 ≤ s.memory_percent := by
  exact foldl_monitorAppend_bounds trace [] (by intro s hs; cases hs)

/-- C2 (witness): the amended invariant applied to a one-tick trace. -/
theorem monitor_ring_bounds_witness :
    0 ≤ (toMon (parseStats exStatsHalf)).cpu_percent ∧
      (toMon (parseStats exStatsHalf)).cpu_percent ≤ 100 ∧
      0 ≤ (toMon (parseStats exStatsHalf)).memory_percent :=
  monitor_ring_bounds [exStatsHalf] (toMon (parseStats exStatsHalf))
    (by rw [show metricsOf [exStatsHalf] = [toMon (parseStats exStatsHalf)] from rfl]
        exact List.mem_singleton_self _)

/-- C2 (counterexample): after one monitor tick on a snapshot whose memory
usage (200) exceeds its limit (100), the latest Sample in the ring has
`memory_percent = 200 ∉ [0, 100]`, refuting the claimed invariant. -/
theorem monitor_ring_bounds_cex :
    (metricsOf [exStatsOver]).map (fun s => s.memory_percent) = [200] ∧
      ¬(∀ s ∈ metricsOf [exStatsOver], s.memory_percent ≤ 100) := by
  have hm : (parseStats exStatsOver).memory_percent = 200 := by
    show round2 _ = 200
    norm_num [exStatsOver, round2]
  constructor
  · rw [show metricsOf [exStatsOver] = [toMon (parseStats exStatsOver)] from rfl]
    simp [toMon, hm]
  · intro hall
    have h1 := hall (toMon (parseStats exStatsOver))
      (by rw [show metricsOf [exStatsOver] = [toMon (parseStats exStatsOver)] from rfl]
          exact List.mem_singleton_self _)
    rw [show (toMon (parseStats exStatsOver)).memory_percent =
      (parseStats exStatsOver).memory_percent from rfl, hm] at h1
    linarith

/-! ## Lemmas about the rate helpers -/

theorem runCalls_net_from (name : String) (rest : List (ℚ × Sample)) :
    ∀ (cache : PrevCache) (tp rxp txp : ℚ),
      cache name = some (netRec tp rxp txp) →
      (∀ c ∈ rest, tp < c.1) →
      rest.Pairwise (fun a b => a.1 < b.1) →
      (runCalls calculateNetworkThroughput cache name rest).map
          (fun p => (p.1, p.2 name)) =
        Except.ok (netResultsFrom (tp, rxp, txp) rest,
          some (netRecOf (netStateAfter (tp, rxp, txp) rest))) := by
  induction rest with
  | nil =>
    intro cache tp rxp txp hc _ _
    simp [runCalls, netResultsFrom, netStateAfter, netRecOf, Except.map, hc]
  | cons c rest ih =>
    intro cache tp rxp txp hc hlt hpw
    have ht : tp < c.1 := hlt c (List.mem_cons_self _ _)
    have hne : ¬(c.1 - tp = 0) := sub_ne_zero.mpr (ne_of_gt ht)
    have hlt' : ∀ c' ∈ rest, c.1 < c'.1 := fun c' hmem =>
      (List.pairwise_cons.mp hpw).1 c' hmem
    have hpw' := (List.pairwise_cons.mp hpw).2
    have hrec := ih (cacheInsert cache name
        (netRec c.1 (c.2.network_rx : ℚ) (c.2.network_tx : ℚ)))
      c.1 (c.2.network_rx : ℚ) (c.2.network_tx : ℚ)
      (by simp [cacheInsert]) hlt' hpw'
    cases hx : runCalls calculateNetworkThroughput
        (cacheInsert cache name
          (netRec c.1 (c.2.network_rx : ℚ) (c.2.network_tx : ℚ)))
        name rest with
    | error e => rw [hx] at hrec; simp [Except.map] at hrec
    | ok pr =>
      rw [hx] at hrec
      simp only [Except.map, Except.map_ok] at hrec
      have h1 : pr.1 = netResultsFrom
          (c.1, (c.2.network_rx : ℚ), (c.2.network_tx : ℚ)) rest := by
        have := congrArg (fun q => match q with
          | Except.ok p => p.1
          | Except.error _ => []) hrec
        simpa using this
      have h2 : pr.2 name = some (netRecOf (netStateAfter
          (c.1, (c.2.network_rx : ℚ), (c.2.network_tx : ℚ)) rest)) := by
        have := congrArg (fun q => match q with
          | Except.ok p => p.2
          | Except.error _ => none) hrec
        simpa using this
      show (match calculateNetworkThroughput cache name c.1 c.2 with
        | Except.error e => Except.error e
        | Except.ok (r, cc) =>
          match runCalls calculateNetworkThroughput cc name rest with
          | Except.error e => Except.error e
          | Except.ok (rs, c') => Except.ok (r :: rs, c')).map
            (fun p : List (ℚ × ℚ) × PrevCache => (p.1, p.2 name)) = _
      rw [calculateNetworkThroughput, hc]
      simp only [netRec, hne, if_false, keyE, Bind.bind, Except.bind]
      simp only [netRec] at hx
      rw [hx]
      simp only [Except.map, netResultsFrom, netStateAfter]
      rw [h1, h2]
      rfl

theorem runCalls_disk_from (name : String) (rest : List (ℚ × Sample)) :
    ∀ (cache : PrevCache) (tp brp bwp : ℚ),
      cache name = some (diskRec tp brp bwp) →
      (∀ c ∈ rest, tp < c.1) →
      (runCalls calculateDiskIops cache name rest).map
          (fun p => (p.1, p.2 name)) =
        Except.ok (diskResultsFrom tp brp bwp rest, some (diskRec tp brp bwp)) := by
  induction rest with
  | nil =>
    intro cache tp brp bwp hc _
    simp [runCalls, diskResultsFrom, Except.map, hc]
  | cons c rest ih =>
    intro cache tp brp bwp hc hlt
    have ht : tp < c.1 := hlt c (List.mem_cons_self _ _)
    have hne : ¬(c.1 - tp = 0) := sub_ne_zero.mpr (ne_of_gt ht)
    have hlt' : ∀ c' ∈ rest, tp < c'.1 := fun c' hmem =>
      hlt c' (List.mem_cons_of_mem _ hmem)
    have hrec := ih cache tp brp bwp hc hlt'
    cases hx : runCalls calculateDiskIops cache name rest with
    | error e => rw [hx] at hrec; simp [Except.map] at hrec
    | ok pr =>
      rw [hx] at hrec
      simp only [Except.map, Except.map_ok] at hrec
      have h1 : pr.1 = diskResultsFrom tp brp bwp rest := by
        have := congrArg (fun q => match q with
          | Except.ok p => p.1
          | Except.error _ => []) hrec
        simpa using this
      have h2 : pr.2 name = some (diskRec tp brp bwp) := by
        have := congrArg (fun q => match q with
          | Except.ok p => p.2
          | Except.error _ => none) hrec
        simpa using this
      show (match calculateDiskIops cache name c.1 c.2 with
        | Except.error e => Except.error e
        | Except.ok (r, cc) =>
          match runCalls calculateDiskIops cc name rest with
          | Except.error e => Except.error e
          | Except.ok (rs, c') => Except.ok (r :: rs, c')).map
            (fun p : List (ℚ × ℚ) × PrevCache => (p.1, p.2 name)) = _
      rw [calculateDiskIops, hc]
      simp only [diskRec, hne, if_false, keyE, Bind.bind, Except.bind]
      rw [hx]
      simp only [Except.map, diskResultsFrom, List.map_cons]
      rw [show diskResultsFrom tp brp bwp rest = rest.map (diskRatesP tp brp bwp)
        from rfl] at h1
      rw [h1, h2]
      rfl

/-- C9 (amended): both rate helpers return zero on the first observation
for a container.  On every later call (at a strictly later wall-clock time)
the network helper computes its rate against the immediately preceding
call's counters and timestamp and updates the cache, so its final cache
entry is the last observation; the disk helper, however, performs **no**
cache update after the first observation — every later call computes its
rate against the *first* observation, whose record is still the cache entry
at the end of the trace. -/
theorem rate_helpers_cache (name : String) (t0 : ℚ) (s0 : Sample)
    (rest : List (ℚ × Sample))
    (hmono : (t0 :: rest.map Prod.fst).Pairwise (· < ·)) :
    (runCalls calculateNetworkThroughput emptyCache name ((t0, s0) :: rest)).map
        (fun p => (p.1, p.2 name)) =
      Except.ok ((0, 0) :: netResultsFrom
          (t0, (s0.network_rx : ℚ), (s0.network_tx : ℚ)) rest,
        some (netRecOf (netStateAfter
          (t0, (s0.network_rx : ℚ), (s0.network_tx : ℚ)) rest))) ∧
    (runCalls calculateDiskIops emptyCache name ((t0, s0) :: rest)).map
        (fun p => (p.1, p.2 name)) =
      Except.ok ((0, 0) :: diskResultsFrom t0 (s0.block_read : ℚ)
          (s0.block_write : ℚ) rest,
        some (diskRec t0 (s0.block_read : ℚ) (s0.block_write : ℚ))) := by
  have hp := List.pairwise_cons.mp hmono
  have hlt : ∀ c ∈ rest, t0 < c.1 := by
    intro c hmem
    exact hp.1 c.1 (List.mem_map_of_mem Prod.fst hmem)
  have hpw : rest.Pairwise (fun a b => a.1 < b.1) :=
    (List.pairwise_map.mp hp.2)
  constructor
  · have hnet := runCalls_net_from name rest
      (cacheInsert emptyCache name
        (netRec t0 (s0.network_rx : ℚ) (s0.network_tx : ℚ)))
      t0 (s0.network_rx : ℚ) (s0.network_tx : ℚ) (by simp [cacheInsert]) hlt hpw
    cases hx : runCalls calculateNetworkThroughput
        (cacheInsert emptyCache name
          (netRec t0 (s0.network_rx : ℚ) (s0.network_tx : ℚ))) name rest with
    | error e => rw [hx] at hnet; simp [Except.map] at hnet
    | ok pr =>
      rw [hx] at hnet
      show (match calculateNetworkThroughput emptyCache name t0 s0 with
        | Except.error e => Except.error e
        | Except.ok (r, cc) =>
          match runCalls calculateNetworkThroughput cc name rest with
          | Except.error e => Except.error e
          | Except.ok (rs, c') => Except.ok (r :: rs, c')).map
            (fun p : List (ℚ × ℚ) × PrevCache => (p.1, p.2 name)) = _
      show (match runCalls calculateNetworkThroughput
          (cacheInsert emptyCache name
            (netRec t0 (s0.network_rx : ℚ) (s0.network_tx : ℚ))) name rest with
        | Except.error e => Except.error e
        | Except.ok (rs, c') =>
          Except.ok (((0 : ℚ), (0 : ℚ)) :: rs, c')).map
            (fun p : List (ℚ × ℚ) × PrevCache => (p.1, p.2 name)) = _
      rw [hx]
      simp only [Except.map, Except.ok.injEq, Prod.mk.injEq] at hnet ⊢
      exact ⟨by rw [hnet.1], hnet.2⟩
  · have hdisk := runCalls_disk_from name rest
      (cacheInsert emptyCache name
        (diskRec t0 (s0.block_read : ℚ) (s0.block_write : ℚ)))
      t0 (s0.block_read : ℚ) (s0.block_write : ℚ) (by simp [cacheInsert]) hlt
    cases hx : runCalls calculateDiskIops
        (cacheInsert emptyCache name
          (diskRec t0 (s0.block_read : ℚ) (s0.block_write : ℚ))) name rest with
    | error e => rw [hx] at hdisk; simp [Except.map] at hdisk
    | ok pr =>
      rw [hx] at hdisk
      show (match calculateDiskIops emptyCache name t0 s0 with
        | Except.error e => Except.error e
        | Except.ok (r, cc) =>
          match runCalls calculateDiskIops cc name rest with
          | Except.error e => Except.error e
          | Except.ok (rs, c') => Except.ok (r :: rs, c')).map
            (fun p : List (ℚ × ℚ) × PrevCache => (p.1, p.2 name)) = _
      show (match runCalls calculateDiskIops
          (cacheInsert emptyCache name
            (diskRec t0 (s0.block_read : ℚ) (s0.block_write : ℚ))) name rest with
        | Except.error e => Except.error e
        | Except.ok (rs, c') =>
          Except.ok (((0 : ℚ), (0 : ℚ)) :: rs, c')).map
            (fun p : List (ℚ × ℚ) × PrevCache => (p.1, p.2 name)) = _
      rw [hx]
      simp only [Except.map, Except.ok.injEq, Prod.mk.injEq] at hdisk ⊢
      exact ⟨by rw [hdisk.1], hdisk.2⟩

/-- C9 (witness): the amended statement applied to a concrete two-call
trace at times 0 and 10. -/
theorem rate_helpers_cache_witness :
    ((0 : ℚ) :: ([((10 : ℚ), defaultMetrics)].map Prod.fst)).Pairwise (· < ·) ∧
    (runCalls calculateDiskIops emptyCache "c"
        ((0, defaultMetrics) :: [(10, defaultMetrics)])).map
        (fun p : List (ℚ × ℚ) × PrevCache => (p.1, p.2 "c")) =
      Except.ok ((0, 0) :: diskResultsFrom 0 ((defaultMetrics.block_read : ℕ) : ℚ)
          ((defaultMetrics.block_write : ℕ) : ℚ) [(10, defaultMetrics)],
        some (diskRec 0 (defaultMetrics.block_read : ℚ)
          (defaultMetrics.block_write : ℚ))) := by
  have hp : ((0 : ℚ) :: ([((10 : ℚ), defaultMetrics)].map Prod.fst)).Pairwise
      (· < ·) := by
    simp [List.pairwise_cons]
  exact ⟨hp, (rate_helpers_cache "c" 0 defaultMetrics [(10, defaultMetrics)] hp).2⟩

/-- C9 (counterexample): three disk-IOPS calls with counters 0, 100, 400 at
times 0, 10, 20.  The third call returns a read rate of 20 — the rate
against the *first* observation `(t=0, counter 0)` — not 30, the rate
against the most recently observed counters `(t=10, counter 100)` that the
claim requires, and the cache still holds the first-call record at the end. -/
theorem rate_helpers_cache_cex :
    (runCalls calculateDiskIops emptyCache "c" exDiskCalls).map
        (fun p : List (ℚ × ℚ) × PrevCache => (p.1, p.2 "c")) =
      Except.ok ([(0, 0), (10, 0), (20, 0)], some (diskRec 0 0 0)) ∧
    ¬((20 : ℚ) = round2 (((400 : ℚ) - 100) / (20 - 10))) := by
  constructor
  · have hc : (cacheInsert emptyCache "c" (diskRec 0
        (((exDiskSample 0).block_read : ℕ) : ℚ)
        (((exDiskSample 0).block_write : ℕ) : ℚ))) "c" = some (diskRec 0 0 0) := by
      simp [cacheInsert, exDiskSample, defaultMetrics]
    have hlt : ∀ c ∈ [((10 : ℚ), exDiskSample 100), ((20 : ℚ), exDiskSample 400)],
        (0 : ℚ) < c.1 := by
      intro c hc'
      simp only [List.mem_cons, List.mem_singleton] at hc'
      rcases hc' with rfl | rfl | h
      · norm_num
      · norm_num
      · cases h
    have hrest := runCalls_disk_from "c"
      [((10 : ℚ), exDiskSample 100), ((20 : ℚ), exDiskSample 400)]
      (cacheInsert emptyCache "c" (diskRec 0
        (((exDiskSample 0).block_read : ℕ) : ℚ)
        (((exDiskSample 0).block_write : ℕ) : ℚ)))
      0 0 0 hc hlt
    have hres : diskResultsFrom 0 0 0
        [((10 : ℚ), exDiskSample 100), ((20 : ℚ), exDiskSample 400)] =
        [(10, 0), (20, 0)] := by
      simp only [diskResultsFrom, List.map_cons, List.map_nil, diskRatesP,
        exDiskSample, defaultMetrics]
      norm_num [round2]
    rw [hres] at hrest
    cases hx : runCalls calculateDiskIops
        (cacheInsert emptyCache "c" (diskRec 0
          (((exDiskSample 0).block_read : ℕ) : ℚ)
          (((exDiskSample 0).block_write : ℕ) : ℚ))) "c"
        [((10 : ℚ), exDiskSample 100), ((20 : ℚ), exDiskSample 400)] with
    | error e => rw [hx] at hrest; simp [Except.map] at hrest
    | ok pr =>
      rw [hx] at hrest
      show (match calculateDiskIops emptyCache "c" 0 (exDiskSample 0) with
        | Except.error e => Except.error e
        | Except.ok (r, cc) =>
          match runCalls calculateDiskIops cc "c"
              [((10 : ℚ), exDiskSample 100), ((20 : ℚ), exDiskSample 400)] with
          | Except.error e => Except.error e
          | Except.ok (rs, c') => Except.ok (r :: rs, c')).map
            (fun p : List (ℚ × ℚ) × PrevCache => (p.1, p.2 "c")) = _
      show (match runCalls calculateDiskIops
          (cacheInsert emptyCache "c" (diskRec 0
            (((exDiskSample 0).block_read : ℕ) : ℚ)
            (((exDiskSample 0).block_write : ℕ) : ℚ))) "c"
          [((10 : ℚ), exDiskSample 100), ((20 : ℚ), exDiskSample 400)] with
        | Except.error e => Except.error e
        | Except.ok (rs, c') =>
          Except.ok (((0 : ℚ), (0 : ℚ)) :: rs, c')).map
            (fun p : List (ℚ × ℚ) × PrevCache => (p.1, p.2 "c")) = _
      rw [hx]
      simp only [Except.map, Except.ok.injEq, Prod.mk.injEq] at hrest ⊢
      exact ⟨by rw [hrest.1], hrest.2⟩
  · norm_num [round2]

/-! ## Lemmas about `check_scaling_need` and the cooldown -/

theorem tdSeconds_ge_sixty {d : ℚ} (h0 : 0 ≤ d) (hg : ¬tdSeconds d < 60) :
    60 ≤ d := by
  rw [tdSeconds] at hg
  push_neg at hg
  have hfl : (0 : ℤ) ≤ ⌊d⌋ := Int.floor_nonneg.mpr h0
  by_cases hlt : ⌊d⌋ < 86400
  · rw [Int.emod_eq_of_lt hfl hlt] at hg
    have : (60 : ℚ) ≤ (⌊d⌋ : ℚ) := by exact_mod_cast hg
    calc (60 : ℚ) ≤ (⌊d⌋ : ℚ) := this
    _ ≤ d := Int.floor_le d
  · push_neg at hlt
    have : (86400 : ℚ) ≤ (⌊d⌋ : ℚ) := by exact_mod_cast hlt
    have h2 := Int.floor_le d
    linarith

set_option linter.unnecessarySeqFocus false in
/-- The second component of `check_scaling_need` is either unchanged, or the
call scaled and the cooldown of that name was set to `now`. -/
theorem checkScalingNeed_cd (cd : CooldownMap) (name : String) (now : ℚ)
    (ring : List MonSample) :
    ((checkScalingNeed cd name now ring).1 = false ∧
      (checkScalingNeed cd name now ring).2 = cd) ∨
    ((checkScalingNeed cd name now ring).1 = true ∧
      (checkScalingNeed cd name now ring).2 =
        fun n => if n = name then some now else cd n) := by
  rw [checkScalingNeed]
  split_ifs <;> (try simp) <;> split_ifs <;> simp

/-- A scaled call passed the cooldown gate. -/
theorem checkScalingNeed_gate (cd : CooldownMap) (name : String) (now : ℚ)
    (ring : List MonSample)
    (h : (checkScalingNeed cd name now ring).1 = true) :
    cooldownActive (cd name) now = false := by
  by_cases hg : cooldownActive (cd name) now
  · rw [checkScalingNeed] at h
    simp [hg] at h
  · exact Bool.of_not_eq_true hg

/-- While `cd n = some t` and all call times are ≥ t, every scaled event
for `n` happens at time ≥ t + 60 (the hard-coded cooldown). -/
theorem runChecks_scaled_ge (n : String) :
    ∀ (calls : List (String × ℚ × List MonSample)) (cd : CooldownMap) (t : ℚ),
      cd n = some t →
      (∀ c ∈ calls, t ≤ c.2.1) →
      calls.Pairwise (fun a b => a.2.1 ≤ b.2.1) →
      ∀ e ∈ runChecks cd calls, e.name = n → e.scaled = true →
        t + 60 ≤ e.time := by
  intro calls
  induction calls with
  | nil => intro cd t _ _ _ e he; cases he
  | cons c rest ih =>
    intro cd t hcd hle hpw e he hname hscaled
    have hle0 : t ≤ c.2.1 := hle c (List.mem_cons_self _ _)
    have hle' : ∀ c' ∈ rest, t ≤ c'.2.1 := fun c' h' =>
      hle c' (List.mem_cons_of_mem _ h')
    have hpw' := (List.pairwise_cons.mp hpw).2
    have hpwh := (List.pairwise_cons.mp hpw).1
    rcases List.mem_cons.mp he with rfl | htail
    · -- the head event scaled: it passed the gate against cd n = some t
      have hb : (checkScalingNeed cd c.1 c.2.1 c.2.2).1 = true := hscaled
      have hgate := checkScalingNeed_gate cd c.1 c.2.1 c.2.2 hb
      have hn : c.1 = n := hname
      rw [hn, hcd] at hgate
      rw [cooldownActive] at hgate
      simp only [decide_eq_false_iff_not] at hgate
      have := tdSeconds_ge_sixty (by linarith : (0 : ℚ) ≤ c.2.1 - t) hgate
      show t + 60 ≤ c.2.1
      linarith
    · -- a later event: case on whether the head call updated the map
      rcases checkScalingNeed_cd cd c.1 c.2.1 c.2.2 with ⟨_, h2⟩ | ⟨_, h2⟩
      · exact ih (checkScalingNeed cd c.1 c.2.1 c.2.2).2 t (by rw [h2]; exact hcd)
          hle' hpw' e htail hname hscaled
      · by_cases hn : n = c.1
        · have hcd' : (checkScalingNeed cd c.1 c.2.1 c.2.2).2 n = some c.2.1 := by
            rw [h2]; simp [hn]
          have := ih (checkScalingNeed cd c.1 c.2.1 c.2.2).2 c.2.1 hcd'
            (fun c' h' => hpwh c' h') hpw' e htail hname hscaled
          linarith
        · have hcd' : (checkScalingNeed cd c.1 c.2.1 c.2.2).2 n = some t := by
            rw [h2]; simp [hn, hcd]
          exact ih (checkScalingNeed cd c.1 c.2.1 c.2.2).2 t hcd' hle' hpw' e
            htail hname hscaled

theorem runChecks_pairwise :
    ∀ (calls : List (String × ℚ × List MonSample)) (cd : CooldownMap),
      calls.Pairwise (fun a b => a.2.1 ≤ b.2.1) →
      (runChecks cd calls).Pairwise (fun a b =>
        a.name = b.name → a.scaled = true → b.scaled = true →
          a.time + 60 ≤ b.time) := by
  intro calls
  induction calls with
  | nil => intro cd _; exact List.Pairwise.nil
  | cons c rest ih =>
    intro cd hpw
    have hpw' := (List.pairwise_cons.mp hpw).2
    have hpwh := (List.pairwise_cons.mp hpw).1
    rw [runChecks]
    refine List.pairwise_cons.mpr ⟨?_, ih _ hpw'⟩
    intro b hb hname hscaled hscaledb
    have hb1 : (checkScalingNeed cd c.1 c.2.1 c.2.2).1 = true := hscaled
    rcases checkScalingNeed_cd cd c.1 c.2.1 c.2.2 with ⟨hfalse, _⟩ | ⟨_, h2⟩
    · rw [hfalse] at hb1; cases hb1
    · have hcd' : (checkScalingNeed cd c.1 c.2.1 c.2.2).2 c.1 = some c.2.1 := by
        rw [h2]; simp
      exact runChecks_scaled_ge c.1 rest _ c.2.1 hcd'
        (fun c' h' => hpwh c' h') hpw' b hb hname.symm hscaledb

/-- C4 (amended): for every trace of `check_scaling_need` invocations with
nondecreasing wall-clock times, `scale_container` is never invoked for the
same name twice within 60 seconds — 60 being the hard-coded literal in
`check_scaling_need`; the `SCALING_COOLDOWN` environment variable is never
read by the program. -/
theorem scale_up_cooldown (calls : List (String × ℚ × List MonSample))
    (hmono : calls.Pairwise (fun a b => a.2.1 ≤ b.2.1)) :
    (scalingTrace calls).Pairwise (fun a b =>
      a.name = b.name → a.scaled = true → b.scaled = true →
        a.time + 60 ≤ b.time) :=
  runChecks_pairwise calls (fun _ => none) hmono

theorem sum_zip_replicate (q : ℚ) :
    ∀ l : List ℚ,
      ((l.zip (List.replicate l.length q)).map (fun p => p.1 * p.2)).sum =
        q * l.sum := by
  intro l
  induction l with
  | nil => simp
  | cons x xs ih =>
    simp only [List.length_cons, List.replicate_succ, List.zip_cons_cons,
      List.map_cons, List.sum_cons, ih]
    ring

theorem slope_replicate (n : ℕ) (q : ℚ) : slope (List.replicate n q) = 0 := by
  simp only [slope]
  rw [List.length_replicate]
  rw [List.sum_replicate, nsmul_eq_mul]
  have hx : ((List.range n).map (fun i : ℕ => (i : ℚ))).length = n := by
    rw [List.length_map, List.length_range]
  have hzip := sum_zip_replicate q ((List.range n).map (fun i : ℕ => (i : ℚ)))
  rw [hx] at hzip
  rw [hzip]
  rw [show (n : ℚ) * (q * ((List.range n).map (fun i : ℕ => (i : ℚ))).sum) -
      ((List.range n).map (fun i : ℕ => (i : ℚ))).sum * ((n : ℚ) * q) = 0 from by
    ring]
  exact zero_div _

theorem trendQ_replicate (n : ℕ) (q : ℚ) : trendQ (List.replicate n q) = 0 := by
  rw [trendQ]
  split
  · rfl
  · exact slope_replicate n q

theorem getLastQ_replicate (q : ℚ) :
    ∀ n : ℕ, (List.replicate (n + 1) q).getLast? = some q := by
  intro n
  induction n with
  | zero => rfl
  | succ m ih =>
    rw [List.replicate_succ, List.replicate_succ,
      List.getLast?_cons_cons, ← List.replicate_succ, ih]

theorem currentQ_replicate_succ (n : ℕ) (q : ℚ) :
    currentQ (List.replicate (n + 1) q) = q := by
  rw [currentQ, getLastQ_replicate q n]
  rfl

theorem predictLoad_hot :
    (predictLoad (numQ (List.replicate 10 (90 : ℚ)))
      (numQ (List.replicate 10 (10 : ℚ))) 5 80).predicted_cpu = 90 := by
  rw [predictLoad_numQ]
  show min (currentQ (List.replicate 10 90) +
    trendQ (takeLast 20 (List.replicate 10 90)) * 5) 100 = 90
  have ht : takeLast 20 (List.replicate 10 (90 : ℚ)) = List.replicate 10 90 := by
    simp [takeLast]
  rw [ht, trendQ_replicate, currentQ_replicate_succ 9 90]
  norm_num [min_def]

theorem checkScalingNeed_hot (cd : CooldownMap) (now : ℚ)
    (hgate : cooldownActive (cd "w") now = false) :
    checkScalingNeed cd "w" now exHotRing =
      (true, fun n => if n = "w" then some now else cd n) := by
  have ht : takeLast 20 exHotRing = exHotRing := by
    simp [takeLast, exHotRing]
  have hlen : exHotRing.length = 10 := rfl
  have hm1 : exHotRing.map (fun m : MonSample => m.cpu_percent) =
      List.replicate 10 (90 : ℚ) := by
    simp [exHotRing, List.map_replicate]
  have hm2 : exHotRing.map (fun m : MonSample => m.memory_percent) =
      List.replicate 10 (10 : ℚ) := by
    simp [exHotRing, List.map_replicate]
  rw [checkScalingNeed, hgate]
  simp only [Bool.false_eq_true, if_false, ht, hlen, hm1, hm2, predictLoad_hot]
  norm_num

/-- C4 (counterexample): with `SCALING_COOLDOWN=300` in the environment,
two `check_scaling_need` invocations for the same container 100 seconds
apart both invoke `scale_container` — two scale-ups within the
spec's `scaling_cooldown_seconds` (300), because the code uses a hard-coded
60-second window and never reads `SCALING_COOLDOWN`. -/
theorem scale_up_cooldown_cex :
    scalingTrace exCooldownCalls =
      [{ name := "w", time := 0, scaled := true },
       { name := "w", time := 100, scaled := true }] ∧
    scalingCooldownSecondsSpec exEnv = 300 ∧
    (100 : ℚ) - 0 < 300 := by
  refine ⟨?_, rfl, by norm_num⟩
  have h1 := checkScalingNeed_hot (fun _ => none) 0 rfl
  have hg2 : cooldownActive
      ((fun n => if n = "w" then some (0 : ℚ) else none) "w") 100 = false := by
    simp only [if_pos rfl, cooldownActive, tdSeconds]
    norm_num
  have h2 := checkScalingNeed_hot (fun n => if n = "w" then some 0 else none)
    100 hg2
  show runChecks (fun _ => none) (("w", 0, exHotRing) :: [("w", 100, exHotRing)]) = _
  rw [runChecks, h1]
  rw [runChecks, h2]
  rfl

/-- C4 (witness): the amended cooldown property applied to the concrete
two-call trace. -/
theorem scale_up_cooldown_witness :
    exCooldownCalls.Pairwise (fun a b => a.2.1 ≤ b.2.1) ∧
    (scalingTrace exCooldownCalls).Pairwise (fun a b =>
      a.name = b.name → a.scaled = true → b.scaled = true →
        a.time + 60 ≤ b.time) := by
  have hp : exCooldownCalls.Pairwise (fun a b => a.2.1 ≤ b.2.1) := by
    simp [exCooldownCalls, List.pairwise_cons]
  exact ⟨hp, scale_up_cooldown exCooldownCalls hp⟩

/-! ## Lemmas about `_next_replica_name` / `_create_replica` -/

theorem findFreeName_none (fleet : Fleet) (runtime : String → Bool)
    (orig : String) :
    ∀ (fuel i : ℕ),
      findFreeName fleet runtime orig i fuel = none ↔
        ∀ j, j < fuel → ¬freeName fleet runtime orig (i + j) := by
  intro fuel
  induction fuel with
  | zero => intro i; simp [findFreeName]
  | succ m ih =>
    intro i
    rw [findFreeName]
    by_cases h1 : (fleet (replicaCandidate orig i)).isSome
    · rw [if_pos h1, ih (i + 1)]
      constructor
      · intro hall j hj
        match j with
        | 0 =>
          intro hfree
          rw [Nat.add_zero] at hfree
          rw [hfree.1] at h1
          simp at h1
        | jj + 1 =>
          have := hall jj (by omega)
          rw [show i + 1 + jj = i + (jj + 1) from by omega] at this
          exact this
      · intro hall j hj
        have := hall (j + 1) (by omega)
        rw [show i + (j + 1) = i + 1 + j from by omega] at this
        exact this
    · rw [if_neg h1]
      by_cases h2 : runtime (replicaCandidate orig i) = true
      · rw [if_pos h2, ih (i + 1)]
        constructor
        · intro hall j hj
          match j with
          | 0 =>
            intro hfree
            rw [Nat.add_zero] at hfree
            rw [hfree.2] at h2
            cases h2
          | jj + 1 =>
            have := hall jj (by omega)
            rw [show i + 1 + jj = i + (jj + 1) from by omega] at this
            exact this
        · intro hall j hj
          have := hall (j + 1) (by omega)
          rw [show i + (j + 1) = i + 1 + j from by omega] at this
          exact this
      · rw [if_neg h2]
        refine iff_of_false (by simp) ?_
        intro hall
        have h0 := hall 0 (by omega)
        rw [Nat.add_zero] at h0
        rw [Bool.not_eq_true] at h2
        exact h0 ⟨Option.not_isSome_iff_eq_none.mp h1, h2⟩

theorem findFreeName_some (fleet : Fleet) (runtime : String → Bool)
    (orig : String) :
    ∀ (fuel i : ℕ) (c : String),
      findFreeName fleet runtime orig i fuel = some c →
      ∃ j, j < fuel ∧ c = replicaCandidate orig (i + j) ∧
        freeName fleet runtime orig (i + j) ∧
        ∀ m, m < j → ¬freeName fleet runtime orig (i + m) := by
  intro fuel
  induction fuel with
  | zero => intro i c h; exact absurd h (by simp [findFreeName])
  | succ m ih =>
    intro i c h
    rw [findFreeName] at h
    by_cases h1 : (fleet (replicaCandidate orig i)).isSome
    · rw [if_pos h1] at h
      obtain ⟨j, hj, hc, hfree, hmin⟩ := ih (i + 1) c h
      refine ⟨j + 1, by omega, ?_, ?_, ?_⟩
      · rw [show i + (j + 1) = i + 1 + j from by omega]; exact hc
      · rw [show i + (j + 1) = i + 1 + j from by omega]; exact hfree
      · intro mm hmm
        match mm with
        | 0 =>
          intro hfr
          rw [Nat.add_zero] at hfr
          rw [hfr.1] at h1
          simp at h1
        | m' + 1 =>
          have := hmin m' (by omega)
          rw [show i + 1 + m' = i + (m' + 1) from by omega] at this
          exact this
    · rw [if_neg h1] at h
      by_cases h2 : runtime (replicaCandidate orig i) = true
      · rw [if_pos h2] at h
        obtain ⟨j, hj, hc, hfree, hmin⟩ := ih (i + 1) c h
        refine ⟨j + 1, by omega, ?_, ?_, ?_⟩
        · rw [show i + (j + 1) = i + 1 + j from by omega]; exact hc
        · rw [show i + (j + 1) = i + 1 + j from by omega]; exact hfree
        · intro mm hmm
          match mm with
          | 0 =>
            intro hfr
            rw [Nat.add_zero] at hfr
            rw [hfr.2] at h2
            cases h2
          | m' + 1 =>
            have := hmin m' (by omega)
            rw [show i + 1 + m' = i + (m' + 1) from by omega] at this
            exact this
      · rw [if_neg h2] at h
        have hc : c = replicaCandidate orig i := (Option.some.inj h).symm
        rw [Bool.not_eq_true] at h2
        refine ⟨0, by omega, by rw [Nat.add_zero]; exact hc, ?_, ?_⟩
        · rw [Nat.add_zero]
          exact ⟨Option.not_isSome_iff_eq_none.mp h1, h2⟩
        · intro mm hmm; omega

/-- C5 (amended): `_create_replica(parent)` returns null exactly when the
parent is not in the fleet, the parent is itself a replica, the parent
already has `max_replicas_per_container` replicas, **or** every candidate
index 1 … 999 is taken (the search loop is `range(1, 1000)`); when it
succeeds, the replica is named `parent_replica_k` for the smallest `k ≥ 1`
such that neither the fleet nor the runtime already holds that name. -/
theorem create_replica_spec (fleet : Fleet) (runtime : String → Bool)
    (maxReplicas newId : ℕ) (orig : String) :
    (createReplica fleet runtime maxReplicas newId orig = none ↔
      fleet orig = none ∨ isReplicaName orig = true ∨
      (∃ inst, fleet orig = some inst ∧ maxReplicas ≤ inst.replicas.length) ∨
      (∀ k, 1 ≤ k → k ≤ 999 → ¬freeName fleet runtime orig k)) ∧
    (∀ rname, (createReplica fleet runtime maxReplicas newId orig).map
        Prod.fst = some rname →
      ∃ k, 1 ≤ k ∧ k ≤ 999 ∧ rname = replicaCandidate orig k ∧
        freeName fleet runtime orig k ∧
        ∀ j, 1 ≤ j → j < k → ¬freeName fleet runtime orig j) := by
  rcases hf : fleet orig with _ | inst
  · constructor
    · exact iff_of_true (by simp [createReplica, hf]) (Or.inl rfl)
    · intro rname h
      simp [createReplica, hf] at h
  · by_cases hrep : isReplicaName orig = true
    · constructor
      · exact iff_of_true (by simp [createReplica, hf, hrep])
          (Or.inr (Or.inl hrep))
      · intro rname h
        simp [createReplica, hf, hrep] at h
    · by_cases hcap : maxReplicas ≤ inst.replicas.length
      · constructor
        · exact iff_of_true (by simp [createReplica, hf, hrep, hcap])
            (Or.inr (Or.inr (Or.inl ⟨inst, rfl, hcap⟩)))
        · intro rname h
          simp [createReplica, hf, hrep, hcap] at h
      · cases hnext : nextReplicaName fleet runtime orig with
        | none =>
          have hall := (findFreeName_none fleet runtime orig 999 1).mp hnext
          constructor
          · refine iff_of_true (by simp [createReplica, hf, hrep, hcap, hnext])
              (Or.inr (Or.inr (Or.inr ?_)))
            intro k hk1 hk2 hfree
            have := hall (k - 1) (by omega)
            rw [show 1 + (k - 1) = k from by omega] at this
            exact this hfree
          · intro rname h
            simp [createReplica, hf, hrep, hcap, hnext] at h
        | some c =>
          obtain ⟨j, hj, hc, hfree, hmin⟩ :=
            findFreeName_some fleet runtime orig 999 1 c hnext
          constructor
          · refine iff_of_false
              (by simp [createReplica, hf, hrep, hcap, hnext]) ?_
            rintro (h | h | ⟨inst', hi, hcap'⟩ | h)
            · exact Option.noConfusion h
            · exact hrep h
            · injection hi with hi
              rw [← hi] at hcap'
              exact hcap hcap'
            · exact h (1 + j) (by omega) (by omega) hfree
          · intro rname h
            simp only [createReplica, hf, hrep, hcap, hnext, if_false,
              Bool.false_eq_true, Option.map_some', Option.some.injEq] at h
            refine ⟨1 + j, by omega, by omega, ?_, hfree, ?_⟩
            · rw [← h]
              exact hc
            · intro j' hj1 hj2
              have := hmin (j' - 1) (by omega)
              rw [show 1 + (j' - 1) = j' from by omega] at this
              exact this

/-- C5 (witness): with the runtime holding `p_replica_1`, the created
replica is `p_replica_2` — the smallest free index. -/
theorem create_replica_spec_witness :
    (createReplica exFleet5 exRuntimeOne 2 7 "p").map Prod.fst =
      some "p_replica_2" ∧
    ∃ k, 1 ≤ k ∧ k ≤ 999 ∧ "p_replica_2" = replicaCandidate "p" k ∧
      freeName exFleet5 exRuntimeOne "p" k ∧
      ∀ j, 1 ≤ j → j < k → ¬freeName exFleet5 exRuntimeOne "p" j :=
  ⟨rfl, (create_replica_spec exFleet5 exRuntimeOne 2 7 "p").2 "p_replica_2" rfl⟩

theorem minListQ_mem : ∀ (L : List ℚ) (m : ℚ), minList? L = some m → m ∈ L := by
  intro L
  induction L with
  | nil => intro m h; cases h
  | cons x xs ih =>
    intro m h
    rw [minList?] at h
    cases hx : minList? xs with
    | none =>
      rw [hx] at h
      injection h with h
      exact List.mem_cons.mpr (Or.inl h.symm)
    | some mx =>
      rw [hx] at h
      injection h with h
      rcases min_cases x mx with ⟨hmin, _⟩ | ⟨hmin, _⟩
      · rw [← h, hmin]; exact List.mem_cons_self _ _
      · rw [← h, hmin]; exact List.mem_cons_of_mem _ (ih mx hx)

theorem minListQ_le : ∀ (L : List ℚ) (m : ℚ), minList? L = some m →
    ∀ x ∈ L, m ≤ x := by
  intro L
  induction L with
  | nil => intro m _ x hx; cases hx
  | cons y ys ih =>
    intro m h x hx
    rw [minList?] at h
    cases hy : minList? ys with
    | none =>
      rw [hy] at h
      injection h with h
      rcases List.mem_cons.mp hx with rfl | hx'
      · exact le_of_eq h.symm
      · cases ys with
        | nil => cases hx'
        | cons z zs => rw [minList?] at hy; cases hz : minList? zs <;>
            rw [hz] at hy <;> cases hy
    | some my =>
      rw [hy] at h
      injection h with h
      rcases List.mem_cons.mp hx with rfl | hx'
      · rw [← h]; exact min_le_left _ _
      · calc m = min y my := h.symm
          _ ≤ my := min_le_right _ _
          _ ≤ x := ih my hy x hx'

set_option maxRecDepth 100000 in
/-- C5 (counterexample): when the runtime holds every candidate name
`p_replica_1` … `p_replica_999` but not `p_replica_1000`, `_create_replica`
returns null although the parent is in the fleet, is not a replica, is
under the replica cap, and a free name (`p_replica_1000`, the claim's
smallest free `k`) exists — the search is capped at `k ≤ 999`. -/
theorem create_replica_spec_cex :
    createReplica exFleet5 exRuntimeHeld 2 7 "p" = none ∧
    exFleet5 "p" = some { id := 1, replicas := [], parent := none } ∧
    isReplicaName "p" = false ∧
    ({ id := 1, replicas := [], parent := none } : Instance).replicas.length < 2 ∧
    freeName exFleet5 exRuntimeHeld "p" 1000 :=
  ⟨rfl, rfl, rfl, by norm_num, rfl, rfl⟩

/-! ## Lemmas about `_select_best_instance` -/

theorem selectStep_none {metrics : MetricsMap} {c : String}
    (hlc : loadOf metrics c = none) (acc : Option ℚ × String) :
    selectStep metrics acc c = acc := by
  rw [selectStep]
  have : (metrics c).getLast? = none := by
    rwa [loadOf, Option.map_eq_none'] at hlc
  rw [this]

theorem selectStep_some {metrics : MetricsMap} {c : String} {w : ℚ}
    (hlc : loadOf metrics c = some w) (v : ℚ) (b : String) :
    selectStep metrics (some v, b) c =
      if w < v then (some w, c) else (some v, b) := by
  rw [loadOf] at hlc
  cases hml : (metrics c).getLast? with
  | none => rw [hml] at hlc; cases hlc
  | some ms =>
    rw [hml] at hlc
    injection hlc with hlc
    rw [selectStep, hml]
    simp only [hlc]

theorem selectStep_none_acc {metrics : MetricsMap} {c : String} {w : ℚ}
    (hlc : loadOf metrics c = some w) (b : String) :
    selectStep metrics (none, b) c = (some w, c) := by
  rw [loadOf] at hlc
  cases hml : (metrics c).getLast? with
  | none => rw [hml] at hlc; cases hlc
  | some ms =>
    rw [hml] at hlc
    injection hlc with hlc
    rw [selectStep, hml]
    simp only [hlc]

theorem selectFold_some (metrics : MetricsMap) :
    ∀ (l : List String) (v : ℚ) (b : String),
      l.foldl (selectStep metrics) (some v, b) =
        match minList? (l.filterMap (loadOf metrics)) with
        | none => (some v, b)
        | some m =>
          if m < v then
            (some m, (l.find? (fun c => loadOf metrics c = some m)).getD b)
          else (some v, b) := by
  intro l
  induction l with
  | nil => intro v b; rfl
  | cons c l ih =>
    intro v b
    rw [List.foldl_cons]
    cases hlc : loadOf metrics c with
    | none =>
      rw [selectStep_none hlc, ih v b]
      have hfm : (c :: l).filterMap (loadOf metrics) =
          l.filterMap (loadOf metrics) := by
        rw [List.filterMap_cons, hlc]
      rw [hfm]
      cases hm : minList? (l.filterMap (loadOf metrics)) with
      | none => rfl
      | some m =>
        dsimp only
        have hfind : (c :: l).find? (fun c' => loadOf metrics c' = some m) =
            l.find? (fun c' => loadOf metrics c' = some m) := by
          rw [List.find?_cons_of_neg]
          simp [hlc]
        rw [hfind]
    | some w =>
      rw [selectStep_some hlc v b]
      have hfm : (c :: l).filterMap (loadOf metrics) =
          w :: l.filterMap (loadOf metrics) := by
        rw [List.filterMap_cons, hlc]
      rw [hfm]
      cases hm : minList? (l.filterMap (loadOf metrics)) with
      | none =>
        have hL : ∀ v' b', l.foldl (selectStep metrics) (some v', b') =
            (some v', b') := by
          intro v' b'
          rw [ih v' b', hm]
        have hcons : minList? (w :: l.filterMap (loadOf metrics)) = some w := by
          simp [minList?, hm]
        rw [hcons]
        dsimp only
        by_cases hwv : w < v
        · rw [if_pos hwv, hL]
          have hfind : (c :: l).find? (fun c' => loadOf metrics c' = some w) =
              some c := by
            rw [List.find?_cons_of_pos]
            simp [hlc]
          rw [hfind, if_pos hwv]
          rfl
        · rw [if_neg hwv, hL, if_neg hwv]
      | some mL =>
        have hcons : minList? (w :: l.filterMap (loadOf metrics)) =
            some (min w mL) := by
          simp [minList?, hm]
        rw [hcons]
        dsimp only
        have hmem := minListQ_mem _ _ hm
        obtain ⟨cm, hcm, hcml⟩ := List.mem_filterMap.mp hmem
        by_cases hwv : w < v
        · rw [if_pos hwv, ih w c, hm]
          dsimp only
          by_cases hmw : mL < w
          · rw [if_pos hmw]
            have hminw : min w mL = mL := min_eq_right (le_of_lt hmw)
            rw [hminw, if_pos (lt_trans hmw hwv)]
            have hfind : (c :: l).find? (fun c' => loadOf metrics c' = some mL) =
                l.find? (fun c' => loadOf metrics c' = some mL) := by
              rw [List.find?_cons_of_neg]
              simp only [hlc, Option.some.injEq, decide_eq_true_eq]
              exact fun hcontra => absurd hmw (by rw [hcontra]; exact lt_irrefl _)
            rw [hfind]
            have hsome : ∃ x, l.find? (fun c' => loadOf metrics c' = some mL)
                = some x := by
              rw [← Option.isSome_iff_exists, List.find?_isSome]
              exact ⟨cm, hcm, by simp [hcml]⟩
            obtain ⟨x, hx⟩ := hsome
            rw [hx]
            rfl
          · rw [if_neg hmw]
            have hminw : min w mL = w := min_eq_left (le_of_not_lt hmw)
            rw [hminw, if_pos hwv]
            have hfind : (c :: l).find? (fun c' => loadOf metrics c' = some w) =
                some c := by
              rw [List.find?_cons_of_pos]
              simp [hlc]
            rw [hfind]
            rfl
        · rw [if_neg hwv, ih v b, hm]
          dsimp only
          have hvw : v ≤ w := le_of_not_lt hwv
          by_cases hmv : mL < v
          · rw [if_pos hmv]
            have hminw : min w mL = mL :=
              min_eq_right (le_of_lt (lt_of_lt_of_le hmv hvw))
            rw [hminw, if_pos hmv]
            have hfind : (c :: l).find? (fun c' => loadOf metrics c' = some mL) =
                l.find? (fun c' => loadOf metrics c' = some mL) := by
              rw [List.find?_cons_of_neg]
              simp only [hlc, Option.some.injEq, decide_eq_true_eq]
              intro hcontra
              rw [hcontra] at hvw
              exact absurd (lt_of_lt_of_le hmv hvw) (lt_irrefl _)
            rw [hfind]
          · rw [if_neg hmv]
            have hnm : ¬ min w mL < v := by
              rcases min_cases w mL with ⟨hc1, _⟩ | ⟨hc1, _⟩ <;> rw [hc1]
              · exact hwv
              · exact hmv
            rw [if_neg hnm]

theorem selectFold_none (metrics : MetricsMap) :
    ∀ (l : List String) (b : String),
      l.foldl (selectStep metrics) (none, b) =
        match minList? (l.filterMap (loadOf metrics)) with
        | none => (none, b)
        | some m =>
          (some m, (l.find? (fun c => loadOf metrics c = some m)).getD b) := by
  intro l
  induction l with
  | nil => intro b; rfl
  | cons c l ih =>
    intro b
    rw [List.foldl_cons]
    cases hlc : loadOf metrics c with
    | none =>
      rw [selectStep_none hlc, ih b]
      have hfm : (c :: l).filterMap (loadOf metrics) =
          l.filterMap (loadOf metrics) := by
        rw [List.filterMap_cons, hlc]
      rw [hfm]
      cases hm : minList? (l.filterMap (loadOf metrics)) with
      | none => rfl
      | some m =>
        dsimp only
        have hfind : (c :: l).find? (fun c' => loadOf metrics c' = some m) =
            l.find? (fun c' => loadOf metrics c' = some m) := by
          rw [List.find?_cons_of_neg]
          simp [hlc]
        rw [hfind]
    | some w =>
      rw [selectStep_none_acc hlc, selectFold_some metrics l w c]
      have hfm : (c :: l).filterMap (loadOf metrics) =
          w :: l.filterMap (loadOf metrics) := by
        rw [List.filterMap_cons, hlc]
      rw [hfm]
      cases hm : minList? (l.filterMap (loadOf metrics)) with
      | none =>
        have hcons : minList? (w :: l.filterMap (loadOf metrics)) = some w := by
          simp [minList?, hm]
        rw [hcons]
        dsimp only
        have hfind : (c :: l).find? (fun c' => loadOf metrics c' = some w) =
            some c := by
          rw [List.find?_cons_of_pos]
          simp [hlc]
        rw [hfind]
        rfl
      | some mL =>
        have hcons : minList? (w :: l.filterMap (loadOf metrics)) =
            some (min w mL) := by
          simp [minList?, hm]
        rw [hcons]
        dsimp only
        have hmem := minListQ_mem _ _ hm
        obtain ⟨cm, hcm, hcml⟩ := List.mem_filterMap.mp hmem
        by_cases hmw : mL < w
        · rw [if_pos hmw]
          have hminw : min w mL = mL := min_eq_right (le_of_lt hmw)
          rw [hminw]
          have hfind : (c :: l).find? (fun c' => loadOf metrics c' = some mL) =
              l.find? (fun c' => loadOf metrics c' = some mL) := by
            rw [List.find?_cons_of_neg]
            simp only [hlc, Option.some.injEq, decide_eq_true_eq]
            exact fun hcontra => absurd hmw (by rw [hcontra]; exact lt_irrefl _)
          rw [hfind]
          have hsome : ∃ x, l.find? (fun c' => loadOf metrics c' = some mL)
              = some x := by
            rw [← Option.isSome_iff_exists, List.find?_isSome]
            exact ⟨cm, hcm, by simp [hcml]⟩
          obtain ⟨x, hx⟩ := hsome
          rw [hx]
          rfl
        · rw [if_neg hmw]
          have hminw : min w mL = w := min_eq_left (le_of_not_lt hmw)
          rw [hminw]
          have hfind : (c :: l).find? (fun c' => loadOf metrics c' = some w) =
              some c := by
            rw [List.find?_cons_of_pos]
            simp [hlc]
          rw [hfind]
          rfl

/-- C6: for every `route_request(name, payload)` call without the
`__direct_instance` flag, the chosen dispatch target is exactly the
specification's choice over the candidate list `[name] ++ replicas`: the
first candidate whose latest Sample attains the minimum `cpu_percent`
(ties broken by iteration order), candidates without a Sample ranking as
+∞ and never chosen while any candidate has a Sample; and the target is
always one of the candidates. -/
theorem route_least_loaded (fleet : Fleet) (metrics : MetricsMap)
    (name : String) :
    routeTarget fleet metrics name =
      specBest metrics name (routeCandidates fleet name) ∧
    routeTarget fleet metrics name ∈ name :: routeCandidates fleet name := by
  rw [routeTarget]
  have hkey : ∀ rest : List String,
      selectBestInstance metrics name rest = specBest metrics name rest ∧
      selectBestInstance metrics name rest ∈ name :: rest := by
    intro rest
    simp only [selectBestInstance, specBest]
    rw [selectFold_none metrics (name :: rest) name]
    cases hm : minList? ((name :: rest).filterMap (loadOf metrics)) with
    | none => exact ⟨rfl, List.mem_cons_self _ _⟩
    | some m =>
      dsimp only
      refine ⟨rfl, ?_⟩
      have hmem := minListQ_mem _ _ hm
      obtain ⟨cm, hcm, hcml⟩ := List.mem_filterMap.mp hmem
      have hsome : ∃ x, (name :: rest).find?
          (fun c' => loadOf metrics c' = some m) = some x := by
        rw [← Option.isSome_iff_exists, List.find?_isSome]
        exact ⟨cm, hcm, by simp [hcml]⟩
      obtain ⟨x, hx⟩ := hsome
      rw [hx]
      simp only [Option.getD_some]
      exact List.mem_of_find?_eq_some hx
  exact hkey (routeCandidates fleet name)

/-- C7 (amended): `create_container` performs no fleet-membership check.
When the runtime's `containers.run` raises, the outer `except` catches it
and the call returns `None` (no `RuntimeError` propagates), leaving the
fleet untouched; when `run` succeeds, the record is written into
`active_containers[name]` — overwriting any entry already registered under
that name — and the container handle is returned. -/
theorem create_container_spec (fleet : Fleet) (lastReq : String → Option ℚ)
    (image name : String) (env : List (String × String))
    (run : String → String → List (String × String) → Option ℕ) (now : ℚ) :
    (run image name (workerEnv image name env) = none →
      (createContainer fleet lastReq image name env run now).1 = none ∧
      (createContainer fleet lastReq image name env run now).2.1 = fleet) ∧
    (∀ cid, run image name (workerEnv image name env) = some cid →
      (createContainer fleet lastReq image name env run now).1 = some cid ∧
      (createContainer fleet lastReq image name env run now).2.1 name =
        some { id := cid, replicas := [], parent := none } ∧
      ∀ m, m ≠ name →
        (createContainer fleet lastReq image name env run now).2.1 m =
          fleet m) := by
  constructor
  · intro h
    refine ⟨?_, ?_⟩ <;> simp [createContainer, h]
  · intro cid h
    refine ⟨?_, ?_, ?_⟩
    · simp [createContainer, h]
    · simp [createContainer, h]
    · intro m hm
      simp [createContainer, h, hm]

/-- C7 (witness): the amended behaviour at a concrete state — a failing
runtime run yields null and leaves the fleet unchanged. -/
theorem create_container_spec_witness :
    exRunFail "img" "w1" (workerEnv "img" "w1" []) = none ∧
    (createContainer exFleet7 (fun _ => none) "img" "w1" [] exRunFail 0).1 =
      none ∧
    (createContainer exFleet7 (fun _ => none) "img" "w1" [] exRunFail 0).2.1 =
      exFleet7 :=
  ⟨rfl, (create_container_spec exFleet7 (fun _ => none) "img" "w1" []
    exRunFail 0).1 rfl⟩

/-- C7 (counterexample): with `"w1"` already in the fleet and a runtime that
accepts the name, `create_container` succeeds and overwrites the existing
fleet record — no rejection happens; and when creation fails the call
returns `None` rather than failing with `RuntimeError`. -/
theorem create_container_spec_cex :
    (createContainer exFleet7 (fun _ => none) "img" "w1" [] exRunOk 0).1 =
      some 2 ∧
    (createContainer exFleet7 (fun _ => none) "img" "w1" [] exRunOk 0).2.1 "w1" =
      some { id := 2, replicas := [], parent := none } ∧
    exFleet7 "w1" = some { id := 1, replicas := [], parent := none } ∧
    (createContainer exFleet7 (fun _ => none) "img" "w1" [] exRunFail 0).1 =
      none :=
  ⟨rfl, rfl, rfl, rfl⟩

/-! ## Lemmas about the graph manager -/

/-- Pigeonhole: a non-empty vertex set in which every vertex has a
predecessor inside the set contains an elementary cycle. -/
theorem cycle_of_stuck (g : DiGraph) (R : List String) (hne : R ≠ [])
    (hstuck : ∀ v ∈ R, ∃ u ∈ R, (u, v) ∈ g.edges) : HasCycle g := by
  classical
  set f : String → String :=
    fun v => (R.find? (fun u => decide ((u, v) ∈ g.edges))).getD v with hf
  have hfR : ∀ v ∈ R, f v ∈ R ∧ (f v, v) ∈ g.edges := by
    intro v hv
    obtain ⟨u, hu, hedge⟩ := hstuck v hv
    have hsome : ∃ x, R.find? (fun u => decide ((u, v) ∈ g.edges)) = some x := by
      rw [← Option.isSome_iff_exists, List.find?_isSome]
      exact ⟨u, hu, by simp [hedge]⟩
    obtain ⟨x, hx⟩ := hsome
    have hmemx := List.mem_of_find?_eq_some hx
    have hpx := List.find?_some hx
    rw [decide_eq_true_eq] at hpx
    rw [hf]
    simp only [hx, Option.getD_some]
    exact ⟨hmemx, hpx⟩
  obtain ⟨v0, hv0⟩ := List.exists_mem_of_ne_nil R hne
  set w : ℕ → String := fun k => f^[k] v0 with hw
  have hwR : ∀ k, w k ∈ R := by
    intro k
    induction k with
    | zero => exact hv0
    | succ n ihn =>
      rw [hw]
      simp only [Function.iterate_succ_apply']
      exact (hfR _ ihn).1
  have hedge : ∀ k, (w (k + 1), w k) ∈ g.edges := by
    intro k
    have h1 : w (k + 1) = f (w k) := by
      rw [hw]
      simp only [Function.iterate_succ_apply']
    rw [h1]
    exact (hfR _ (hwR k)).2
  have hcard : R.toFinset.card <
      (Finset.univ : Finset (Fin (R.length + 1))).card := by
    rw [Finset.card_univ, Fintype.card_fin]
    exact Nat.lt_succ_of_le R.toFinset_card_le
  have hmapsto : ∀ a ∈ (Finset.univ : Finset (Fin (R.length + 1))),
      w a.val ∈ R.toFinset := by
    intro a _
    rw [List.mem_toFinset]
    exact hwR a.val
  obtain ⟨a, _, b, _, hab, heqab⟩ :=
    Finset.exists_ne_map_eq_of_card_lt_of_maps_to hcard hmapsto
  have hex : ∃ j, ∃ i, i < j ∧ w i = w j := by
    rcases lt_or_gt_of_ne (Fin.val_ne_of_ne hab) with hlt | hgt
    · exact ⟨b.val, a.val, hlt, heqab⟩
    · exact ⟨a.val, b.val, hgt, heqab.symm⟩
  obtain ⟨i1, hi1lt, heq1⟩ := Nat.find_spec hex
  set j1 := Nat.find hex with hj1
  have hprefinj : ∀ x y, x < y → y < j1 → w x ≠ w y := by
    intro x y hxy hy hxyeq
    exact Nat.find_min hex hy ⟨x, hxy, hxyeq⟩
  set m := j1 - i1 with hm
  have hm1 : 1 ≤ m := by omega
  refine ⟨(List.range m).map (fun k => w (j1 - 1 - k)), ?_, ?_, ?_,
    w (j1 - 1), w (j1 - 1 - (m - 1)), ?_, ?_, ?_⟩
  · intro hnil
    rw [List.map_eq_nil_iff, List.range_eq_nil] at hnil
    omega
  · refine List.Nodup.map_on ?_ (List.nodup_range m)
    intro x hx y hy hxyeq
    rw [List.mem_range] at hx hy
    by_contra hne'
    have hidx : j1 - 1 - x ≠ j1 - 1 - y := by omega
    rcases lt_or_gt_of_ne hidx with h' | h'
    · exact hprefinj _ _ h' (by omega) hxyeq
    · exact hprefinj _ _ h' (by omega) hxyeq.symm
  · rw [List.chain'_map]
    rw [show m = (m - 1) + 1 from by omega, List.chain'_range_succ]
    intro k hk
    have harith : j1 - 1 - k = (j1 - 1 - (k + 1)) + 1 := by omega
    rw [harith]
    exact hedge (j1 - 1 - (k + 1))
  · rw [List.head?_map]
    rw [show m = (m - 1) + 1 from by omega, List.range_succ_eq_map]
    rfl
  · rw [List.getLast?_map]
    rw [show m = (m - 1) + 1 from by omega, List.range_succ,
      List.getLast?_concat]
    rfl
  · have h1 : j1 - 1 - (m - 1) = i1 := by omega
    have hlast := hedge (j1 - 1)
    rw [show j1 - 1 + 1 = j1 from by omega] at hlast
    rw [h1, heq1]
    exact hlast

/-- When Kahn's algorithm fails (no source vertex while vertices remain),
the graph has an elementary cycle. -/
theorem kahnAux_none (g : DiGraph) :
    ∀ (fuel : ℕ) (rem : List String), rem.length ≤ fuel →
      kahnAux g fuel rem = none → HasCycle g := by
  intro fuel
  induction fuel with
  | zero =>
    intro rem hlen h
    have hrem : rem = [] := List.length_eq_zero.mp (Nat.le_zero.mp hlen)
    subst hrem
    simp [kahnAux] at h
  | succ n ih =>
    intro rem hlen h
    simp only [kahnAux] at h
    cases hf : rem.find? (fun v => !hasIncomingFrom g rem v) with
    | none =>
      rw [hf] at h
      dsimp only at h
      by_cases he : rem.isEmpty
      · rw [if_pos he] at h
        exact absurd h (by simp)
      · have hne : rem ≠ [] := fun hnil => he (by simp [hnil])
        refine cycle_of_stuck g rem hne ?_
        intro v hv
        have hnp := List.find?_eq_none.mp hf v hv
        have h2 : hasIncomingFrom g rem v = true := by
          cases hb : hasIncomingFrom g rem v
          · exact absurd (by simp [hb]) hnp
          · rfl
        rw [hasIncomingFrom, List.any_eq_true] at h2
        obtain ⟨u, hu, hud⟩ := h2
        rw [decide_eq_true_eq] at hud
        exact ⟨u, hu, hud⟩
    | some v =>
      rw [hf] at h
      dsimp only at h
      rw [Option.map_eq_none'] at h
      have hv : v ∈ rem := List.mem_of_find?_eq_some hf
      have hlen' : (rem.erase v).length ≤ n := by
        rw [List.length_erase_of_mem hv]
        omega
      exact ih (rem.erase v) hlen' h

/-- When Kahn's algorithm succeeds, its output is a permutation of the
remaining vertices in which no edge points backwards and no emitted
vertex has a self-loop. -/
theorem kahnAux_sound (g : DiGraph) :
    ∀ (fuel : ℕ) (rem l : List String), kahnAux g fuel rem = some l →
      l.Perm rem ∧ l.Pairwise (fun a b => (b, a) ∉ g.edges) ∧
        ∀ v ∈ l, (v, v) ∉ g.edges := by
  intro fuel
  induction fuel with
  | zero =>
    intro rem l h
    simp only [kahnAux] at h
    by_cases he : rem.isEmpty
    · rw [if_pos he] at h
      have hrem : rem = [] := List.isEmpty_iff.mp he
      obtain rfl : l = [] := (Option.some.inj h).symm
      subst hrem
      exact ⟨List.Perm.refl _, List.Pairwise.nil, by simp⟩
    · rw [if_neg he] at h
      exact absurd h (by simp)
  | succ n ih =>
    intro rem l h
    simp only [kahnAux] at h
    cases hf : rem.find? (fun v => !hasIncomingFrom g rem v) with
    | none =>
      rw [hf] at h
      dsimp only at h
      by_cases he : rem.isEmpty
      · rw [if_pos he] at h
        have hrem : rem = [] := List.isEmpty_iff.mp he
        obtain rfl : l = [] := (Option.some.inj h).symm
        subst hrem
        exact ⟨List.Perm.refl _, List.Pairwise.nil, by simp⟩
      · rw [if_neg he] at h
        exact absurd h (by simp)
    | some v =>
      rw [hf] at h
      dsimp only at h
      rw [Option.map_eq_some'] at h
      obtain ⟨l', hl', hcons⟩ := h
      obtain ⟨hperm', hpw', hself'⟩ := ih (rem.erase v) l' hl'
      have hv : v ∈ rem := List.mem_of_find?_eq_some hf
      have hnoin : ∀ u ∈ rem, (u, v) ∉ g.edges := by
        have hp := List.find?_some hf
        rw [Bool.not_eq_true'] at hp
        rw [hasIncomingFrom, List.any_eq_false] at hp
        intro u hu hedge
        exact absurd (decide_eq_true hedge) (hp u hu)
      subst hcons
      refine ⟨?_, ?_, ?_⟩
      · exact (hperm'.cons v).trans (List.perm_cons_erase hv).symm
      · rw [List.pairwise_cons]
        refine ⟨?_, hpw'⟩
        intro b hb
        exact hnoin b (List.erase_subset v rem (hperm'.mem_iff.mp hb))
      · intro x hx
        rcases List.mem_cons.mp hx with rfl | hx'
        · exact hnoin x hv
        · exact hself' x hx'

/-- In a topological ordering, the tail of every edge sits strictly before
its head. -/
theorem edge_idx_lt (g : DiGraph) (hwf : WellFormed g) {l : List String}
    (hperm : l.Perm g.nodes)
    (hpw : l.Pairwise (fun a b => (b, a) ∉ g.edges))
    (hself : ∀ v ∈ l, (v, v) ∉ g.edges) {x y : String}
    (hxy : (x, y) ∈ g.edges) : l.indexOf x < l.indexOf y := by
  classical
  have hx : x ∈ l := hperm.mem_iff.mpr (hwf.2 _ hxy).1
  have hy : y ∈ l := hperm.mem_iff.mpr (hwf.2 _ hxy).2
  have hxlen : l.indexOf x < l.length := List.indexOf_lt_length.mpr hx
  have hylen : l.indexOf y < l.length := List.indexOf_lt_length.mpr hy
  rcases Nat.lt_trichotomy (l.indexOf x) (l.indexOf y) with h | h | h
  · exact h
  · exfalso
    have hxy' : x = y := (List.indexOf_inj hx hy).mp h
    subst hxy'
    exact hself x hx hxy
  · exfalso
    rw [List.pairwise_iff_getElem] at hpw
    have hcontra := hpw (l.indexOf y) (l.indexOf x) hylen hxlen h
    rw [List.getElem_indexOf hylen, List.getElem_indexOf hxlen] at hcontra
    exact hcontra hxy

/-- Along a path of edges, positions in a topological ordering never
decrease. -/
theorem chain_idx_le (g : DiGraph) (hwf : WellFormed g) {l : List String}
    (hperm : l.Perm g.nodes)
    (hpw : l.Pairwise (fun a b => (b, a) ∉ g.edges))
    (hself : ∀ v ∈ l, (v, v) ∉ g.edges) :
    ∀ (rest : List String) (a t : String),
      List.Chain' (fun p q => (p, q) ∈ g.edges) (a :: rest) →
      (a :: rest).getLast? = some t → l.indexOf a ≤ l.indexOf t := by
  intro rest
  induction rest with
  | nil =>
    intro a t _ hlast
    simp only [List.getLast?_singleton, Option.some.injEq] at hlast
    subst hlast
    exact le_refl _
  | cons b rest' ih =>
    intro a t hchain hlast
    have hab : (a, b) ∈ g.edges := (List.chain'_cons.mp hchain).1
    have h1 : l.indexOf a < l.indexOf b :=
      edge_idx_lt g hwf hperm hpw hself hab
    rw [List.getLast?_cons_cons] at hlast
    have h2 := ih b t (List.chain'_cons.mp hchain).2 hlast
    omega

/-- A graph with a topological ordering of all its nodes has no elementary
cycle. -/
theorem cycle_not_topo (g : DiGraph) (hwf : WellFormed g)
    {l c : List String} (htopo : IsTopoOrder g l) (hcyc : SimpleCycle g c) :
    False := by
  obtain ⟨hperm, hpw, hself⟩ := htopo
  obtain ⟨hne, _, hchain, h0, t0, hh, ht, hwrap⟩ := hcyc
  cases c with
  | nil => exact hne rfl
  | cons a rest =>
    simp only [List.head?_cons, Option.some.injEq] at hh
    subst hh
    have h1 : l.indexOf a ≤ l.indexOf t0 :=
      chain_idx_le g hwf hperm hpw hself rest a t0 hchain ht
    have h2 : l.indexOf t0 < l.indexOf a :=
      edge_idx_lt g hwf hperm hpw hself hwrap
    omega

/-- C8: on a well-formed graph, `get_topology_order` fails (the
`NetworkXUnfeasible` raised by `nx.topological_sort` is not caught by
`except nx.NetworkXError` and propagates) if and only if the graph has an
elementary cycle, i.e. iff `detect_cycles` is non-empty; on an acyclic
graph it returns a topological ordering of all nodes. -/
theorem topo_order_iff_cycles (g : DiGraph) (hwf : WellFormed g) :
    ((getTopologyOrder g = Except.error ()) ↔ HasCycle g) ∧
      (∀ l, getTopologyOrder g = Except.ok l → IsTopoOrder g l) := by
  cases hk : topoSortKahn g with
  | none =>
    have hcyc : HasCycle g :=
      kahnAux_none g g.nodes.length g.nodes (le_refl _) hk
    refine ⟨⟨fun _ => hcyc, fun _ => ?_⟩, fun l hl => ?_⟩
    · simp only [getTopologyOrder, hk]
    · rw [getTopologyOrder, hk] at hl
      exact absurd hl (by simp)
  | some l0 =>
    have hsound := kahnAux_sound g g.nodes.length g.nodes l0 hk
    have htopo : IsTopoOrder g l0 := ⟨hsound.1, hsound.2.1, hsound.2.2⟩
    refine ⟨⟨fun herr => ?_, fun hcyc => ?_⟩, fun l hl => ?_⟩
    · rw [getTopologyOrder, hk] at herr
      exact absurd herr (by simp)
    · obtain ⟨c, hc⟩ := hcyc
      exact (cycle_not_topo g hwf htopo hc).elim
    · rw [getTopologyOrder, hk] at hl
      obtain rfl : l0 = l := Except.ok.inj hl
      exact htopo

theorem topo_order_iff_cycles_witness :
    WellFormed exGraph ∧
      (((getTopologyOrder exGraph = Except.error ()) ↔ HasCycle exGraph) ∧
        (∀ l, getTopologyOrder exGraph = Except.ok l →
          IsTopoOrder exGraph l)) :=
  ⟨⟨by decide, by decide⟩, topo_order_iff_cycles exGraph ⟨by decide, by decide⟩⟩

end DockerOrch
